import Mathlib

/-!
Verification development for the talk_codex_gemini debate orchestrator.

The definitions below are a shallow embedding of the TypeScript sources:
`src/server/cli-runner.ts` (shell quoting, template rendering, output
extraction and the zero-exit result assembly of `runAgent`), and the
`DebateEngine` class (connect/start/pause/resume/stop operations and the
turn loop `runLoop` / `invokeTurn`).  External effects (child processes,
the file system, wall-clock timestamps) are modelled as explicit inputs:
a turn's runner outcome is a script value, `makeRunId`'s clock/randomness
are parameters, and emitted events are accumulated in a list.
-/

namespace TalkDebate

/-- Single-quote character (code point 39), written via `Char.ofNat`. -/
def squote : Char := Char.ofNat 39

/-- Double-quote character (code point 34). -/
def dquote : Char := Char.ofNat 34

/-- Backslash character (code point 92). -/
def bslash : Char := Char.ofNat 92

/-- Dollar character (code point 36). -/
def dollarc : Char := Char.ofNat 36

/-- Backtick character (code point 96). -/
def backtickc : Char := Char.ofNat 96

/-- Whitespace for the JS `String.prototype.trim` model (the ASCII part
of the JS WhiteSpace/LineTerminator classes). -/
def isJsWhitespace (c : Char) : Bool :=
  c = ' ' || c = '\t' || c = '\n' || c = '\r' || c = Char.ofNat 11 || c = Char.ofNat 12

/-- JS `String.prototype.trim`: strip leading and trailing whitespace. -/
def jsTrim (s : String) : String :=
  String.mk (((s.toList.dropWhile isJsWhitespace).reverse.dropWhile isJsWhitespace).reverse)

/-- Left brace character (code point 123). -/
def lbrace : Char := Char.ofNat 123

/-- Right brace character (code point 125). -/
def rbrace : Char := Char.ofNat 125

/-- `cli-runner.ts` `shQuote`, per character: a single quote becomes the
five-character sequence quote, dquote, quote, dquote, quote (the
JS replacement closes the quote, supplies a double-quoted single
quote, and reopens); every other character is kept. -/
def shQuoteEscChar (c : Char) : List Char :=
  if c = squote then [squote, dquote, squote, dquote, squote] else [c]

/-- `cli-runner.ts` `shQuote`: wrap the value in single quotes, replacing
each embedded single quote by `shQuoteEscChar`'s sequence
(`value.replace(/'/g, ...)` applies to every occurrence). -/
def shQuote (value : String) : String :=
  String.mk ([squote] ++ (value.toList.flatMap shQuoteEscChar) ++ [squote])

/-- Ampersand character (code point 38). -/
def ampc : Char := Char.ofNat 38

/-- ECMAScript GetSubstitution over a replacement template, for a string
search value (so there are no capture groups): doubled dollar yields a
dollar, dollar-ampersand the matched text, dollar-backtick the part of
the subject before the match, dollar-quote the part after it; any other
dollar (including dollar-digit with no captures) stays literal, and
scanning continues with the following character. -/
def getSubst (matched pre suf : List Char) : List Char → List Char
  | [] => []
  | [c] => [c]
  | c :: d :: rest =>
    if c = dollarc then
      if d = dollarc then dollarc :: getSubst matched pre suf rest
      else if d = ampc then matched ++ getSubst matched pre suf rest
      else if d = backtickc then pre ++ getSubst matched pre suf rest
      else if d = squote then suf ++ getSubst matched pre suf rest
      else c :: getSubst matched pre suf (d :: rest)
    else c :: getSubst matched pre suf (d :: rest)

/-- JS `String.prototype.replaceAll` with a string search value and a
string replacement: leftmost, non-overlapping matches, the replacement
template going through `getSubst` at every occurrence.  `done` holds the
consumed prefix reversed, `fuel` starts at the subject's length (every
step consumes at least one subject character, so it never runs out);
`pat` is non-empty at every call site (the braced template keys). -/
def replaceAllGo (pat rep : List Char) : Nat → List Char → List Char → List Char
  | _, _, [] => []
  | 0, _, l => l
  | fuel + 1, done, c :: rest =>
    if pat ≠ [] ∧ pat.isPrefixOf (c :: rest) then
      getSubst pat done.reverse (rest.drop (pat.length - 1)) rep ++
        replaceAllGo pat rep fuel (pat.reverse ++ done) (rest.drop (pat.length - 1))
    else
      c :: replaceAllGo pat rep fuel (c :: done) rest

/-- String wrapper for `replaceAllGo`. -/
def replaceAllStr (s pat rep : String) : String :=
  String.mk (replaceAllGo pat.toList rep.toList s.toList.length [] s.toList)

/-- `cli-runner.ts` `renderTemplate`: for each template variable, replace
all occurrences of the braced key by the individually shell-quoted value. -/
def renderTemplate (template : String) (vars : List (String × String)) : String :=
  vars.foldl
    (fun rendered kv =>
      replaceAllStr rendered (String.mk ([lbrace] ++ kv.1.toList ++ [rbrace])) (shQuote kv.2))
    template

/-! ### POSIX-shell-style tokenizer

The spec's template-quoting property is stated against "a POSIX-shell-style
tokenizer".  The tokenizer below is that apparatus (it is not part of the
repository): words split on unquoted whitespace; single quotes make every
character literal until the closing quote; double quotes make characters
literal except that a backslash escapes `$`, backtick, `"` and `\`; an
unquoted backslash escapes the next character.  An unterminated quote or a
dangling backslash yields `none`. -/

inductive ShTokState
  | normal
  | inSingle
  | inDouble
  | escNormal
  | escDouble
deriving DecidableEq

/-- Unquoted word-splitting whitespace. -/
def isShSpace (c : Char) : Bool :=
  c = ' ' || c = '\t' || c = '\n' || c = '\r'

/-- Tokenizer core: input characters, quoting state (`escNormal` /
`escDouble` mean the previous character was an unquoted / double-quoted
backslash), whether a word is in progress, the current word's
characters, the completed words. -/
def shTokenizeAux : List Char → ShTokState → Bool → List Char → List String → Option (List String)
  | [], .normal, inWord, cur, acc =>
    some (acc ++ (if inWord then [String.mk cur] else []))
  | [], _, _, _, _ => none
  | c :: rest, .normal, inWord, cur, acc =>
    if isShSpace c then
      shTokenizeAux rest .normal false [] (if inWord then acc ++ [String.mk cur] else acc)
    else if c = squote then shTokenizeAux rest .inSingle true cur acc
    else if c = dquote then shTokenizeAux rest .inDouble true cur acc
    else if c = bslash then shTokenizeAux rest .escNormal true cur acc
    else shTokenizeAux rest .normal true (cur ++ [c]) acc
  | c :: rest, .inSingle, _, cur, acc =>
    if c = squote then shTokenizeAux rest .normal true cur acc
    else shTokenizeAux rest .inSingle true (cur ++ [c]) acc
  | c :: rest, .inDouble, _, cur, acc =>
    if c = dquote then shTokenizeAux rest .normal true cur acc
    else if c = bslash then shTokenizeAux rest .escDouble true cur acc
    else shTokenizeAux rest .inDouble true (cur ++ [c]) acc
  | d :: rest, .escNormal, _, cur, acc =>
    shTokenizeAux rest .normal true (cur ++ [d]) acc
  | d :: rest, .escDouble, _, cur, acc =>
    if d = dollarc ∨ d = backtickc ∨ d = dquote ∨ d = bslash then
      shTokenizeAux rest .inDouble true (cur ++ [d]) acc
    else shTokenizeAux rest .inDouble true (cur ++ [bslash, d]) acc

/-- Tokenize a whole command string. -/
def shTokenize (s : String) : Option (List String) :=
  shTokenizeAux s.toList .normal false [] []

/-- Modelled from the spec: the claim's quoting rule, which says each
embedded single quote is replaced by "the four-character sequence that
closes, escapes, and reopens the quoting", i.e. quote, backslash, quote,
quote.  Stated only to be compared with the source's `shQuote`. -/
def shQuoteClaimRule (value : String) : String :=
  String.mk
    ([squote] ++
      (value.toList.flatMap fun c =>
        if c = squote then [squote, bslash, squote, squote] else [c]) ++
      [squote])

/-! ### Output extraction (`cli-runner.ts`)

`tryParseJson` output is a JSON tree (or `null` when nothing parsed); the
tree is taken as an input of the model, JSON string parsing itself being
outside every claim. -/

inductive JsonValue
  | null
  | bool (b : Bool)
  | num (repr : String)
  | str (s : String)
  | arr (xs : List JsonValue)
  | obj (fields : List (String × JsonValue))

/-- `deepFindString`'s key loop: the first listed key whose value is a
string with non-empty trim, returned trimmed. -/
def keyHit (fields : List (String × JsonValue)) : List String → String
  | [] => ""
  | k :: ks =>
    match fields.lookup k with
    | some (.str s) => if jsTrim s = "" then keyHit fields ks else jsTrim s
    | _ => keyHit fields ks

mutual

/-- `cli-runner.ts` `deepFindString`: check the known keys on this node,
then recurse through the object's (or array's) values in order; primitive
nodes yield nothing. -/
def deepFindString (keys : List String) : JsonValue → String
  | .obj fields =>
    let hit := keyHit fields keys
    if hit = "" then deepFindFields keys fields else hit
  | .arr xs => deepFindElems keys xs
  | _ => ""

/-- Recursion of `deepFindString` over an object's values. -/
def deepFindFields (keys : List String) : List (String × JsonValue) → String
  | [] => ""
  | (_, v) :: rest =>
    let n := deepFindString keys v
    if n = "" then deepFindFields keys rest else n

/-- Recursion of `deepFindString` over an array's elements. -/
def deepFindElems (keys : List String) : List JsonValue → String
  | [] => ""
  | v :: rest =>
    let n := deepFindString keys v
    if n = "" then deepFindElems keys rest else n

end

/-- Character class `["'\s:=]` of the session-id fallback regexes. -/
def isClass1 (c : Char) : Bool :=
  c = dquote || c = squote || c = ' ' || c = '\t' || c = '\n' || c = '\r' ||
    c = Char.ofNat 11 || c = Char.ofNat 12 || c = ':' || c = '='

/-- Character class `[A-Za-z0-9._:-]` of the capture groups. -/
def isClass2 (c : Char) : Bool :=
  ('A' ≤ c && c ≤ 'Z') || ('a' ≤ c && c ≤ 'z') || c.isDigit ||
    c = '.' || c = '_' || c = ':' || c = '-'

/-- Case-insensitive literal-word match (`w` given lowercase); returns
the remaining characters. -/
def matchWordCI : List Char → List Char → Option (List Char)
  | [], rest => some rest
  | _, [] => none
  | x :: ws, c :: rest => if c.toLower = x then matchWordCI ws rest else none

/-- Backtracking split of greedy `["'\s:=]+` followed by the greedy
capture (at least `minLen` characters of class 2): the separator run
gives characters back from its maximal length `k` down to one, regex
fashion. -/
def bestSplit (cs : List Char) (minLen : Nat) : Nat → Option String
  | 0 => none
  | k + 1 =>
    let cap := (cs.drop (k + 1)).takeWhile isClass2
    if minLen ≤ cap.length ∧ 0 < cap.length then some (String.mk cap)
    else bestSplit cs minLen k

/-- After the `id` literal: `["'\s:=]+` then capture `[A-Za-z0-9._:-]`
repeated at least `minLen` times. -/
def captureAfter (minLen : Nat) (cs : List Char) : Option String :=
  bestSplit cs minLen (cs.takeWhile isClass1).length

/-- `[-_ ]?id` then the capture, with the optional separator tried
greedily first. -/
def afterSessionWord (minLen : Nat) (rest : List Char) : Option String :=
  let withSep : Option String :=
    match rest with
    | c :: rest' =>
      if c = '-' || c = '_' || c = ' ' then
        match matchWordCI ['i', 'd'] rest' with
        | some rest2 => captureAfter minLen rest2
        | none => none
      else none
    | [] => none
  match withSep with
  | some s => some s
  | none =>
    match matchWordCI ['i', 'd'] rest with
    | some rest2 => captureAfter minLen rest2
    | none => none

/-- Attempt of `/(?:session|thread|conversation)[-_ ]?id["'\s:=]+([A-Za-z0-9._:-]+)/i`
at one start position. -/
def matchP1At (cs : List Char) : Option String :=
  match matchWordCI "session".toList cs with
  | some rest => afterSessionWord 1 rest
  | none =>
    match matchWordCI "thread".toList cs with
    | some rest => afterSessionWord 1 rest
    | none =>
      match matchWordCI "conversation".toList cs with
      | some rest => afterSessionWord 1 rest
      | none => none

/-- Attempt of `/id["'\s:=]+([A-Za-z0-9._:-]{6,})/i` at one start
position. -/
def matchP2At (cs : List Char) : Option String :=
  match matchWordCI ['i', 'd'] cs with
  | some rest => captureAfter 6 rest
  | none => none

/-- Leftmost match: try the pattern at each start position. -/
def scanFirst (p : List Char → Option String) : List Char → Option String
  | [] => p []
  | c :: rest =>
    match p (c :: rest) with
    | some s => some s
    | none => scanFirst p rest

/-- The regex fallback of `extractSessionId`: the first regex over the
whole text, then the second. -/
def extractSessionIdRegex (raw : String) : String :=
  match scanFirst matchP1At raw.toList with
  | some s => s
  | none =>
    match scanFirst matchP2At raw.toList with
    | some s => s
    | none => ""

/-- Key aliases searched for a session id. -/
def sessionIdKeys : List String :=
  ["session_id", "sessionId", "thread_id", "threadId", "conversation_id", "conversationId"]

/-- Key aliases searched for the response text. -/
def textKeys : List String :=
  ["text", "output_text", "response", "content", "message", "answer"]

/-- `cli-runner.ts` `extractSessionId`: structured search first, then the
regex scan of the raw text. -/
def extractSessionId (raw : String) (parsed : JsonValue) : String :=
  let fromJson := deepFindString sessionIdKeys parsed
  if fromJson = "" then extractSessionIdRegex raw else fromJson

/-- `cli-runner.ts` `extractText`: structured search first, then the raw
trimmed text. -/
def extractText (raw : String) (parsed : JsonValue) : String :=
  let fromJson := deepFindString textKeys parsed
  if fromJson = "" then jsTrim raw else fromJson

/-- JS `||` on strings: the left operand unless it is empty. -/
def jsOr (a b : String) : String :=
  if a = "" then b else a

/-- `cli-runner.ts` `AgentRunResult`. -/
structure AgentRunResult where
  stdout : String
  stderr : String
  text : String
  sessionId : String
  command : String
deriving DecidableEq

/-- The `close` handler of `CliAgentRunner.runAgent` on exit status zero:
`text: extractText(stdout, parsed)` and
`sessionId: extractSessionId(stdout, parsed) || options.sessionId || ""`
(`parsed` stands for `tryParseJson(stdout)`; a caller-supplied session id
of `none` models the `undefined` option). -/
def closeZeroResult (stdout stderr command : String) (parsed : JsonValue)
    (sessionId : Option String) : AgentRunResult :=
  { stdout := stdout
    stderr := stderr
    command := command
    text := extractText stdout parsed
    sessionId := jsOr (extractSessionId stdout parsed) (jsOr (sessionId.getD "") "") }

/-! ### Debate engine state and operations (`debate-engine.ts`)

The `DebateEngine` class's fields are gathered in `EngineState`;
`executionActive` models `executionPromise !== null`.  The runner, the
session store, the run-log store and the event sink are external
collaborators: a runner reply is a script input, timestamps are string
parameters, and the stores' writes carry no information the claims need
beyond what the state already holds. -/

inductive AgentName
  | gemini
  | codex
deriving DecidableEq

inductive AgentStatus
  | idle
  | connecting
  | ready
  | error
deriving DecidableEq

inductive DebateStatus
  | idle
  | running
  | pause_requested
  | paused
  | stopping
  | stopped
  | completed
deriving DecidableEq

/-- `types.ts` `AgentSession`. -/
structure AgentSession where
  agent : AgentName
  sessionId : String
  status : AgentStatus
  lastConnectedAt : String
  lastError : Option String
deriving DecidableEq

/-- `types.ts` `DebateStateSnapshot`. -/
structure DebateSnapshot where
  status : DebateStatus
  runId : String
  round : Nat
  topic : String
  maxRounds : Nat
  reason : Option String
deriving DecidableEq

/-- The parts of `RuntimeConfig` the engine reads; `consensus` is the
`consensusRegex.test` predicate. -/
structure EngineConfig where
  defaultMaxRounds : Nat
  consensus : String → Bool

/-- The mutable fields of `DebateEngine`. -/
structure EngineState where
  debate : DebateSnapshot
  gemini : AgentSession
  codex : AgentSession
  pauseRequested : Bool
  stopRequested : Bool
  executionActive : Bool
  consecutiveEmptyResponses : Nat
deriving DecidableEq

/-- `this.state.agents[agent]`. -/
def agentOf (st : EngineState) : AgentName → AgentSession
  | .gemini => st.gemini
  | .codex => st.codex

/-- Update one agent's session record. -/
def setAgent (st : EngineState) (a : AgentName) (f : AgentSession → AgentSession) : EngineState :=
  match a with
  | .gemini => { st with gemini := f st.gemini }
  | .codex => { st with codex := f st.codex }

/-- Printable agent name (JS template interpolation). -/
def agentNameStr : AgentName → String
  | .gemini => "gemini"
  | .codex => "codex"

/-- The `DebateEngine` constructor: idle debate, empty run id, agents
initialised from the persisted session file. -/
def initState (cfg : EngineConfig) (persistedGemini persistedCodex : String) : EngineState :=
  { debate :=
      { status := .idle, runId := "", round := 0, topic := "",
        maxRounds := cfg.defaultMaxRounds, reason := none }
    gemini :=
      { agent := .gemini, sessionId := persistedGemini, status := .idle,
        lastConnectedAt := "", lastError := none }
    codex :=
      { agent := .codex, sessionId := persistedCodex, status := .idle,
        lastConnectedAt := "", lastError := none }
    pauseRequested := false
    stopRequested := false
    executionActive := false
    consecutiveEmptyResponses := 0 }

/-- Result of a `connectAgent` call: the state afterwards, whether the
Process Invoker was reached, and the returned session or thrown message. -/
structure ConnectOutcome where
  state : EngineState
  invoked : Bool
  probeSessionId : Option String
  result : Except String AgentSession

/-- `resumeSessionId ?? currentSessionId` in `connectAgent`. -/
def resolvedSessionId (st : EngineState) (agent : AgentName)
    (resumeSessionId : Option String) : String :=
  resumeSessionId.getD (agentOf st agent).sessionId

/-- `DebateEngine.connectAgent`: rejected while the debate status is
`running` or `pause_requested`; otherwise probes the runner (its reply is
the script input `runnerOutcome`) and requires a non-empty extracted
session id. -/
def connectAgent (st : EngineState) (agent : AgentName) (resumeSessionId : Option String)
    (runnerOutcome : Except String AgentRunResult) (now : String) : ConnectOutcome :=
  if st.debate.status = .running ∨ st.debate.status = .pause_requested then
    { state := st, invoked := false, probeSessionId := none,
      result := .error "토론 실행 중에는 에이전트 재연결을 할 수 없습니다." }
  else
    let resolved := resolvedSessionId st agent resumeSessionId
    let probe : Option String := if resolved = "" then none else some resolved
    let st1 := setAgent st agent fun s => { s with status := .connecting, lastError := none }
    match runnerOutcome with
    | .error m =>
      { state := setAgent st1 agent fun s => { s with status := .error, lastError := some m }
        invoked := true
        probeSessionId := probe
        result := .error m }
    | .ok result =>
      if result.sessionId = "" then
        let m := agentNameStr agent ++ " session id를 추출하지 못했습니다."
        { state := setAgent st1 agent fun s => { s with status := .error, lastError := some m }
          invoked := true
          probeSessionId := probe
          result := .error m }
      else
        let st2 := setAgent st1 agent fun s =>
          { s with
              status := .ready
              sessionId := result.sessionId
              lastConnectedAt := now
              lastError := none }
        { state := st2, invoked := true, probeSessionId := probe,
          result := .ok (agentOf st2 agent) }

/-- `RunLogStore.makeRunId`: `run_` + timestamp stamp + `_` + random
suffix; the stamp and suffix are inputs of the model. -/
def makeRunId (stamp suffix : String) : String :=
  "run_" ++ stamp ++ "_" ++ suffix

/-- `DebateEngine.startDebate`: guards in source order (empty topic,
execution promise already present, agents not both ready), then a fresh
run record, a reset debate snapshot with status `running`, and the loop
scheduled (`executionActive := true`). -/
def startDebate (cfg : EngineConfig) (st : EngineState) (topic : String)
    (maxRounds : Option Nat) (stamp suffix : String) : Except String EngineState :=
  if jsTrim topic = "" then .error "토론 주제가 비어 있습니다."
  else if st.executionActive then .error "이미 실행 중인 토론이 있습니다."
  else if ¬(st.gemini.status = .ready ∧ st.codex.status = .ready) then
    .error "Gemini와 Codex 모두 ready 상태여야 시작할 수 있습니다."
  else
    .ok { st with
      pauseRequested := false
      stopRequested := false
      consecutiveEmptyResponses := 0
      debate :=
        { status := .running, runId := makeRunId stamp suffix, round := 0,
          topic := jsTrim topic, maxRounds := maxRounds.getD cfg.defaultMaxRounds,
          reason := none }
      executionActive := true }

/-- `DebateEngine.pauseDebate`: only from `running`; sets the pause flag
and moves to `pause_requested`. -/
def pauseDebate (st : EngineState) : Except String EngineState :=
  if st.debate.status ≠ .running then .error "running 상태에서만 일시정지 가능합니다."
  else
    .ok { st with
      pauseRequested := true
      debate := { st.debate with status := .pause_requested, reason := some "pause requested" } }

/-- `DebateEngine.resumeDebate`: only from `paused`; clears the pause
flag and returns to `running` (the wait handle release belongs to the
loop model). -/
def resumeDebate (st : EngineState) : Except String EngineState :=
  if st.debate.status ≠ .paused then .error "paused 상태에서만 재개 가능합니다."
  else
    .ok { st with
      pauseRequested := false
      debate := { st.debate with status := .running, reason := some "resumed" } }

/-- `DebateEngine.stopDebate`: from `running`, `pause_requested` or
`paused`; sets the stop flag and moves to `stopping` (`cancelActive` and
the wait release belong to the collaborators). -/
def stopDebate (st : EngineState) : Except String EngineState :=
  if st.debate.status ≠ .running ∧ st.debate.status ≠ .pause_requested ∧
      st.debate.status ≠ .paused then
    .error "현재 중지할 수 있는 토론이 없습니다."
  else
    .ok { st with
      stopRequested := true
      debate := { st.debate with status := .stopping, reason := some "stop requested" } }

/-- States reachable from the constructor through the public operations
and the mutations the turn loop performs.  Loop mutations only happen
while the execution promise is live (`runLoop` is started by
`startDebate` and clears `executionActive` in its `finally`), hence
their `executionActive = true` guard; `loopFinish` is that `finally`
block. -/
inductive Reachable (cfg : EngineConfig) : EngineState → Prop
  | init (pg pc : String) : Reachable cfg (initState cfg pg pc)
  | connect {st} (h : Reachable cfg st) (a : AgentName) (rsid : Option String)
      (ro : Except String AgentRunResult) (now : String) :
      Reachable cfg (connectAgent st a rsid ro now).state
  | start {st st'} (h : Reachable cfg st) (topic : String) (mr : Option Nat)
      (stamp suffix : String)
      (hok : startDebate cfg st topic mr stamp suffix = .ok st') : Reachable cfg st'
  | pause {st st'} (h : Reachable cfg st) (hok : pauseDebate st = .ok st') : Reachable cfg st'
  | resume {st st'} (h : Reachable cfg st) (hok : resumeDebate st = .ok st') : Reachable cfg st'
  | stop {st st'} (h : Reachable cfg st) (hok : stopDebate st = .ok st') : Reachable cfg st'
  | loopSetRound {st} (h : Reachable cfg st) (r : Nat) (hx : st.executionActive = true) :
      Reachable cfg { st with debate := { st.debate with round := r } }
  | loopPaused {st} (h : Reachable cfg st) (hx : st.executionActive = true) :
      Reachable cfg { st with debate :=
        { st.debate with status := .paused, reason := some "paused at turn boundary" } }
  | loopSessionRotate {st} (h : Reachable cfg st) (a : AgentName) (sid now : String)
      (hx : st.executionActive = true) :
      Reachable cfg (setAgent st a fun s =>
        { s with status := .ready, sessionId := sid, lastConnectedAt := now, lastError := none })
  | loopCountSet {st} (h : Reachable cfg st) (n : Nat) (hx : st.executionActive = true) :
      Reachable cfg { st with consecutiveEmptyResponses := n }
  | loopFinish {st} (h : Reachable cfg st) (fs : DebateStatus) (reason : String)
      (hx : st.executionActive = true) (hfs : fs = .stopped ∨ fs = .completed) :
      Reachable cfg { st with
        pauseRequested := false
        stopRequested := false
        debate := { st.debate with status := fs, reason := some reason }
        executionActive := false }

/-! ### The turn loop (`DebateEngine.runLoop` / `invokeTurn`)

The loop is embedded as a recursion over rounds.  A `RoundEnv` gives, for
one round, the runner's reply for each turn and the values the control
flags have at the checkpoints the code reads them (the flags are only
mutated by `pauseDebate`/`stopDebate`/`resumeDebate`, which under the JS
run-to-completion model can only run while the loop is suspended at an
await, i.e. between those checkpoints).  A pause honored at the round
boundary either ends in a stop (`stopDuringPause`) or in a resume, whose
status change `resumeDebate` performs before releasing the wait.  Panel
output events and timestamps are not modelled; `TranscriptEntry` keeps
every field of `types.ts` except the timestamp `ts`. -/

/-- The runner's normalized reply for one turn. -/
structure TurnResult where
  text : String
  sessionId : String
  stdout : String
  stderr : String
deriving DecidableEq

/-- `types.ts` `TranscriptEntry` (without the wall-clock `ts`). -/
structure TranscriptEntry where
  runId : String
  round : Nat
  fromAgent : AgentName
  toAgent : AgentName
  prompt : String
  response : String
  rawStdout : String
  rawStderr : String
deriving DecidableEq

/-- Observable actions of the loop: a `runner.runAgent` call, a
`debate_state` emission, a `turn_log` emission, an `error` emission. -/
inductive EngineEvent
  | invocation (agent : AgentName) (round : Nat) (prompt : String)
  | debateState (status : DebateStatus) (round : Nat) (reason : Option String)
  | turnLog (entry : TranscriptEntry)
  | errorEv (detail : String)
deriving DecidableEq

/-- One round's external inputs: runner replies (`Except` errors model
rejections: process failure, timeout, cancellation) and the control-flag
values at each checkpoint. -/
structure RoundEnv where
  stopAtTop : Bool
  codexResult : Except String TurnResult
  stopAfterCodex : Bool
  geminiResult : Except String TurnResult
  stopAfterGemini : Bool
  pauseAtBoundary : Bool
  stopDuringPause : Bool

/-- Loop-visible state: the debate snapshot's `round`/`status`/`reason`,
the empty-response counter, the responder's latest text, and the
accumulated events and transcript entries. -/
structure LoopSt where
  round : Nat
  status : DebateStatus
  reason : Option String
  count : Nat
  latestGemini : String
  events : List EngineEvent
  entries : List TranscriptEntry

/-- `setDebateStatus`: store status and reason, emit `debate_state`. -/
def setStatusEv (s : DebateStatus) (r : Option String) (st : LoopSt) : LoopSt :=
  { st with status := s, reason := r, events := st.events ++ [.debateState s st.round r] }

/-- The round-1 initiator prompt of `runLoop` (the joined line array). -/
def codexOpeningPrompt (topic : String) : String :=
  "토론 주제: " ++ topic ++
    "\n당신은 Codex 역할입니다. 토론을 시작하세요.\n형식: 주장 2개, 예상 리스크 1개."

/-- The round>1 initiator prompt: embeds the responder's previous
response `latestGemini` whole. -/
def codexRoundPrompt (topic : String) (round : Nat) (latestGemini : String) : String :=
  "토론 주제: " ++ topic ++ "\n토론 라운드: " ++ toString round ++
    "\n상대(Gemini) 최신 의견:\n" ++ latestGemini ++
    "\n상대 의견을 반박/수용으로 나누어 답변하세요."

/-- The initiator prompt selection of `runLoop`. -/
def mkCodexPrompt (topic : String) (round : Nat) (latestGemini : String) : String :=
  if round = 1 then codexOpeningPrompt topic else codexRoundPrompt topic round latestGemini

/-- The responder prompt: embeds the initiator's just-produced response
whole. -/
def mkGeminiPrompt (topic : String) (round : Nat) (codexText : String) : String :=
  "토론 주제: " ++ topic ++ "\n토론 라운드: " ++ toString round ++
    "\n상대(Codex) 최신 의견:\n" ++ codexText ++
    "\n상대 의견에 대한 반박/수용과 개선안을 제시하세요."

/-- The message thrown on the second consecutive whitespace-only
response. -/
def emptyAbortMsg : String := "연속 2회 빈 응답으로 토론을 중단합니다."

/-- What `invokeTurn` does after awaiting the runner. -/
inductive TurnOut
  | threw (msg : String)
  | returned (text : String)

/-- Append the turn's transcript entry and its `turn_log` event. -/
def logTurn (runId : String) (frm toA : AgentName) (round : Nat)
    (prompt responseText rawStdout rawStderr : String) (st : LoopSt) : LoopSt :=
  let entry : TranscriptEntry :=
    { runId := runId, round := round, fromAgent := frm, toAgent := toA,
      prompt := prompt, response := responseText,
      rawStdout := rawStdout, rawStderr := rawStderr }
  { st with entries := st.entries ++ [entry], events := st.events ++ [.turnLog entry] }

/-- `DebateEngine.invokeTurn`: guard on the run id, the runner call (one
`invocation` event), then — on success — the empty-response bookkeeping
(the abort is thrown before the entry is appended), the transcript
append, and the summary round update.  Session rotation touches only
agent records, outside `LoopSt`.  Returns the untrimmed text, while the
logged response is trimmed. -/
def invokeTurn (runId : String) (frm toA : AgentName) (round : Nat) (prompt : String)
    (result : Except String TurnResult) (st : LoopSt) : LoopSt × TurnOut :=
  if runId = "" then (st, .threw "runId가 없습니다.")
  else
    match result with
    | .error m =>
      ({ st with events := st.events ++ [.invocation frm round prompt] }, .threw m)
    | .ok r =>
      if jsTrim r.text = "" then
        if st.count + 1 ≥ 2 then
          ({ st with
              events := st.events ++ [.invocation frm round prompt]
              count := st.count + 1 }, .threw emptyAbortMsg)
        else
          (logTurn runId frm toA round prompt (jsTrim r.text) r.stdout r.stderr
            { st with
                events := st.events ++ [.invocation frm round prompt]
                count := st.count + 1 }, .returned r.text)
      else
        (logTurn runId frm toA round prompt (jsTrim r.text) r.stdout r.stderr
          { st with events := st.events ++ [.invocation frm round prompt], count := 0 },
          .returned r.text)

/-- How one round (or the `break` that ends it) terminates. -/
inductive LoopExit
  | stoppedManual
  | consensus
  | errored (msg : String)
  | natural
deriving DecidableEq

/-- The body of one `for` iteration of `runLoop`, checkpoint by
checkpoint; `none` means the loop continues with the next round. -/
def roundStep (cfg : EngineConfig) (runId topic : String) (e : RoundEnv) (round : Nat)
    (st : LoopSt) : LoopSt × Option LoopExit :=
  if e.stopAtTop then (st, some .stoppedManual)
  else
    match invokeTurn runId .codex .gemini round (mkCodexPrompt topic round st.latestGemini)
        e.codexResult (setStatusEv st.status st.reason { st with round := round }) with
    | (st1, .threw m) => (st1, some (.errored m))
    | (st1, .returned codexText) =>
      if e.stopAfterCodex then (st1, some .stoppedManual)
      else
        match invokeTurn runId .gemini .codex round (mkGeminiPrompt topic round codexText)
            e.geminiResult st1 with
        | (st2, .threw m) => (st2, some (.errored m))
        | (st2, .returned geminiText) =>
          if e.stopAfterGemini then
            ({ st2 with latestGemini := geminiText }, some .stoppedManual)
          else if cfg.consensus codexText || cfg.consensus geminiText then
            ({ st2 with latestGemini := geminiText }, some .consensus)
          else if e.pauseAtBoundary then
            if e.stopDuringPause then
              (setStatusEv .paused (some "paused at turn boundary")
                { st2 with latestGemini := geminiText }, some .stoppedManual)
            else
              (setStatusEv .running (some "resumed")
                (setStatusEv .paused (some "paused at turn boundary")
                  { st2 with latestGemini := geminiText }), none)
          else ({ st2 with latestGemini := geminiText }, none)

/-- The `for round = 1..maxRounds` recursion: `fuel` rounds remain,
`round` is the next round number. -/
def runRoundsAux (cfg : EngineConfig) (runId topic : String) (envs : Nat → RoundEnv) :
    Nat → Nat → LoopSt → LoopSt × LoopExit
  | 0, _, st => (st, .natural)
  | fuel + 1, round, st =>
    match roundStep cfg runId topic (envs round) round st with
    | (st', some ex) => (st', ex)
    | (st', none) => runRoundsAux cfg runId topic envs fuel (round + 1) st'

/-- Outcome of one whole `runLoop` execution: the values written to the
run summary in the `finally` block, and the full event / transcript
record. -/
structure RunResult where
  status : DebateStatus
  reason : String
  round : Nat
  events : List EngineEvent
  entries : List TranscriptEntry

/-- The loop state `runLoop` starts from (status `running` was just set
by `startDebate`). -/
def initLoopSt : LoopSt :=
  { round := 0, status := .running, reason := none, count := 0,
    latestGemini := "", events := [], entries := [] }

/-- `DebateEngine.runLoop`: run the rounds, then the `try` tail
(`max rounds reached` replaces the default reason only on a natural
exit, since a break leaves a non-default reason and an exception skips
the check, and the stop flag is only set on paths that break), the
`catch` (error event), and the `finally` (final `debate_state` emission
and summary update). -/
def runLoop (cfg : EngineConfig) (runId topic : String) (maxRounds : Nat)
    (envs : Nat → RoundEnv) : RunResult :=
  let (st, ex) := runRoundsAux cfg runId topic envs maxRounds 1 initLoopSt
  let final : DebateStatus × String :=
    match ex with
    | .natural => (.completed, if maxRounds ≤ st.round then "max rounds reached" else "completed")
    | .stoppedManual => (.stopped, "manual stop")
    | .consensus => (.completed, "consensus detected")
    | .errored m => (.stopped, m)
  let catchEvents : List EngineEvent :=
    match ex with
    | .errored m => [.errorEv m]
    | _ => []
  { status := final.1
    reason := final.2
    round := st.round
    events := st.events ++ catchEvents ++ [.debateState final.1 st.round (some final.2)]
    entries := st.entries }

/-- Number of runner invocations in an event list. -/
def invCount : List EngineEvent → Nat
  | [] => 0
  | .invocation _ _ _ :: rest => invCount rest + 1
  | _ :: rest => invCount rest

/-- The invocation events, as (agent, round) pairs in order. -/
def invocationsOf : List EngineEvent → List (AgentName × Nat)
  | [] => []
  | .invocation a r _ :: rest => (a, r) :: invocationsOf rest
  | _ :: rest => invocationsOf rest

/-- The codex start command template of the runtime configuration
(`codex {prompt}`). -/
def codexStartTemplate : String := "codex \x7bprompt\x7d"

/-- The legal per-round invocation patterns from a given starting round:
nothing; a lone initiator turn (the round was cut short); or an
initiator–responder pair followed by the pattern of the next round. -/
inductive TurnSeq : Nat → List (AgentName × Nat) → Prop
  | nil (r : Nat) : TurnSeq r []
  | lone (r : Nat) : TurnSeq r [(.codex, r)]
  | pair {r : Nat} {rest : List (AgentName × Nat)} (h : TurnSeq (r + 1) rest) :
      TurnSeq r ((.codex, r) :: (.gemini, r) :: rest)

/-- A benign round script: no stop/pause flags, both turns reply. -/
def benignEnv (ct gt : TurnResult) : RoundEnv :=
  { stopAtTop := false, codexResult := .ok ct, stopAfterCodex := false,
    geminiResult := .ok gt, stopAfterGemini := false, pauseAtBoundary := false,
    stopDuringPause := false }

/-- Concrete witness configuration: consensus on the exact text AGREE. -/
def cfgW : EngineConfig :=
  { defaultMaxRounds := 2, consensus := fun s => s == "AGREE" }

/-- Witness codex reply. -/
def ctW : TurnResult := { text := "hi", sessionId := "s", stdout := "o", stderr := "" }

/-- Witness gemini reply matching the consensus pattern. -/
def gtW : TurnResult := { text := "AGREE", sessionId := "s", stdout := "o", stderr := "" }

/-- Witness configuration with a never-matching consensus pattern. -/
def cfgP : EngineConfig := { defaultMaxRounds := 2, consensus := fun _ => false }

/-- Witness gemini reply that matches nothing. -/
def gtP : TurnResult := { text := "ok", sessionId := "s", stdout := "o", stderr := "" }

/-- Witness round script: benign turns, pause observed at the boundary,
stop while paused. -/
def envsP : Nat → RoundEnv := fun _ =>
  { benignEnv ctW gtP with pauseAtBoundary := true, stopDuringPause := true }

/-- Whitespace-only codex witness reply. -/
def ctE : TurnResult := { text := " ", sessionId := "s", stdout := "o", stderr := "" }

/-- Empty gemini witness reply. -/
def gtE : TurnResult := { text := "", sessionId := "s", stdout := "o", stderr := "" }

/-- A 180-character responder reply (the repository's own trimming test
uses 180 characters against a text limit of 100). -/
def gLong : TurnResult :=
  { text := String.mk (List.replicate 180 'g'), sessionId := "s", stdout := "o", stderr := "" }

/-- Round script of the failing run: a long responder reply in round 1,
plain replies afterwards. -/
def envsC1 : Nat → RoundEnv := fun r =>
  if r = 1 then benignEnv ctW gLong else benignEnv ctW gtP

/-- A ready agent record for witnesses. -/
def agReady (a : AgentName) (sid : String) : AgentSession :=
  { agent := a, sessionId := sid, status := .ready, lastConnectedAt := "", lastError := none }

/-- A concrete idle engine state whose agents are both ready. -/
def stReady : EngineState :=
  { debate :=
      { status := .idle, runId := "", round := 0, topic := "", maxRounds := 2, reason := none }
    gemini := agReady .gemini "g1"
    codex := agReady .codex "c1"
    pauseRequested := false
    stopRequested := false
    executionActive := false
    consecutiveEmptyResponses := 0 }

/-- A state in which a run is active but paused, and a plausible probe
reply: the concrete scene of the C6 counterexample. -/
def stPaused : EngineState :=
  { stReady with
      debate :=
        { status := .paused, runId := makeRunId "d" "x", round := 1,
          topic := "topic", maxRounds := 2, reason := some "paused at turn boundary" }
      pauseRequested := true
      executionActive := true }

/-- A successful probe reply carrying a session id. -/
def probeOk : AgentRunResult :=
  { stdout := "", stderr := "", text := "OK", sessionId := "sid9", command := "c" }

/-- The probe reply the C9 witness feeds both connects. -/
def okProbe : AgentRunResult :=
  { stdout := "", stderr := "", text := "OK", sessionId := "sid1", command := "c" }

/-- The started state of the C9 witness: constructor, two successful
connects, one successful `startDebate`. -/
def stW1 : EngineState :=
  { debate :=
      { status := .running, runId := makeRunId "d" "x", round := 0, topic := "topic",
        maxRounds := 2, reason := none }
    gemini :=
      { agent := .gemini, sessionId := "sid1", status := .ready, lastConnectedAt := "t1",
        lastError := none }
    codex :=
      { agent := .codex, sessionId := "sid1", status := .ready, lastConnectedAt := "t2",
        lastError := none }
    pauseRequested := false
    stopRequested := false
    executionActive := true
    consecutiveEmptyResponses := 0 }

/-! ### Lemmas: the tokenizer on `shQuote` output -/

lemma tok_normal_squote (b : Bool) (rest : List Char) (cur : List Char) (acc : List String) :
    shTokenizeAux (squote :: rest) .normal b cur acc =
      shTokenizeAux rest .inSingle true cur acc := by
  have hsp : isShSpace squote = false := by decide
  cases b <;> simp [shTokenizeAux, hsp]

lemma tok_single_squote (rest : List Char) (cur : List Char) (acc : List String) :
    shTokenizeAux (squote :: rest) .inSingle true cur acc =
      shTokenizeAux rest .normal true cur acc := by
  simp [shTokenizeAux]

lemma tok_single_other {c : Char} (h : c ≠ squote) (rest : List Char) (cur : List Char)
    (acc : List String) :
    shTokenizeAux (c :: rest) .inSingle true cur acc =
      shTokenizeAux rest .inSingle true (cur ++ [c]) acc := by
  simp [shTokenizeAux, h]

lemma tok_normal_dquote (rest : List Char) (cur : List Char) (acc : List String) :
    shTokenizeAux (dquote :: rest) .normal true cur acc =
      shTokenizeAux rest .inDouble true cur acc := by
  have h1 : isShSpace dquote = false := by decide
  have h2 : ¬ dquote = squote := by decide
  simp [shTokenizeAux, h1, h2]

lemma tok_double_squote (rest : List Char) (cur : List Char) (acc : List String) :
    shTokenizeAux (squote :: rest) .inDouble true cur acc =
      shTokenizeAux rest .inDouble true (cur ++ [squote]) acc := by
  have h1 : ¬ squote = dquote := by decide
  have h2 : ¬ squote = bslash := by decide
  simp [shTokenizeAux, h1, h2]

lemma tok_double_dquote (rest : List Char) (cur : List Char) (acc : List String) :
    shTokenizeAux (dquote :: rest) .inDouble true cur acc =
      shTokenizeAux rest .normal true cur acc := by
  simp [shTokenizeAux]

lemma shQuoteEscChar_squote :
    shQuoteEscChar squote = [squote, dquote, squote, dquote, squote] := by
  simp [shQuoteEscChar]

lemma shQuoteEscChar_other {c : Char} (h : c ≠ squote) : shQuoteEscChar c = [c] := by
  simp [shQuoteEscChar, h]

/-- Processing the escaped body of a single-quoted value keeps the
tokenizer in single-quote mode and appends exactly the original
characters to the current word. -/
lemma tok_escBody (cs : List Char) (rest : List Char) (cur : List Char) (acc : List String) :
    shTokenizeAux (cs.flatMap shQuoteEscChar ++ rest) .inSingle true cur acc =
      shTokenizeAux rest .inSingle true (cur ++ cs) acc := by
  induction cs generalizing cur with
  | nil => simp
  | cons c cs ih =>
    by_cases h : c = squote
    · subst h
      rw [List.flatMap_cons, shQuoteEscChar_squote]
      simp only [List.cons_append, List.nil_append, List.append_assoc]
      rw [tok_single_squote, tok_normal_dquote, tok_double_squote, tok_double_dquote,
        tok_normal_squote, ih]
      simp
    · rw [List.flatMap_cons, shQuoteEscChar_other h]
      simp only [List.cons_append, List.nil_append, List.append_assoc]
      rw [tok_single_other h, ih]
      simp

/-- Tokenizing `shQuote value` from single-quote mode entry to exit. -/
lemma tok_shQuote_from_normal (b : Bool) (v : String) (rest : List Char) (cur : List Char)
    (acc : List String) :
    shTokenizeAux ((shQuote v).toList ++ rest) .normal b cur acc =
      shTokenizeAux rest .normal true (cur ++ v.toList) acc := by
  show shTokenizeAux ((squote :: (v.toList.flatMap shQuoteEscChar ++ [squote])) ++ rest)
      .normal b cur acc = _
  rw [List.cons_append, tok_normal_squote, List.append_assoc, tok_escBody,
    List.singleton_append, tok_single_squote]

/-- The tokenizer recovers the quoted value as the single token of
`shQuote value`. -/
lemma shTokenize_shQuote (v : String) : shTokenize (shQuote v) = some [v] := by
  have h0 : (shQuote v).toList = (shQuote v).toList ++ [] := by simp
  show shTokenizeAux (shQuote v).toList .normal false [] [] = some [v]
  rw [h0, tok_shQuote_from_normal]
  simp [shTokenizeAux]

/-- A replacement text without a dollar sign passes through
ECMAScript GetSubstitution unchanged. -/
lemma getSubst_no_dollar (matched pre suf : List Char) :
    ∀ rep : List Char, dollarc ∉ rep → getSubst matched pre suf rep = rep := by
  intro rep
  induction rep with
  | nil => intro _; rfl
  | cons c rest ih =>
    intro h
    have hc : c ≠ dollarc := fun hc => h (hc ▸ List.mem_cons_self c rest)
    have hrest : dollarc ∉ rest := fun hm => h (List.mem_cons_of_mem c hm)
    cases rest with
    | nil => rfl
    | cons d rest2 =>
      show (if c = dollarc then _ else c :: getSubst matched pre suf (d :: rest2)) = _
      rw [if_neg hc, ih hrest]

/-- If the first character of the pattern never occurs in the subject,
`replaceAllGo` leaves the subject unchanged (no match can start). -/
lemma replaceAllGo_head_notin (p0 : Char) (prest rep : List Char) :
    ∀ subj : List Char, p0 ∉ subj →
      ∀ (fuel : Nat) (done : List Char),
        replaceAllGo (p0 :: prest) rep fuel done subj = subj := by
  intro subj
  induction subj with
  | nil => intro _ fuel done; cases fuel <;> rfl
  | cons c rest ih =>
    intro h fuel done
    have hc : p0 ≠ c := fun hc => h (hc ▸ List.mem_cons_self c rest)
    have hrest : p0 ∉ rest := fun hm => h (List.mem_cons_of_mem c hm)
    cases fuel with
    | zero => rfl
    | succ f =>
      have hpre : (p0 :: prest).isPrefixOf (c :: rest) = false := by
        simp [List.isPrefixOf, hc]
      show (if (p0 :: prest) ≠ [] ∧ (p0 :: prest).isPrefixOf (c :: rest) then _
        else c :: replaceAllGo (p0 :: prest) rep f (c :: done) rest) = c :: rest
      rw [if_neg (by simp [hpre]), ih hrest f (c :: done)]

/-- Every character of `shQuote v` is a single quote, a double quote, or a
character of `v`. -/
lemma shQuote_mem {c : Char} {v : String} (h : c ∈ (shQuote v).toList) :
    c = squote ∨ c = dquote ∨ c ∈ v.toList := by
  have h0 : (shQuote v).toList = [squote] ++ v.toList.flatMap shQuoteEscChar ++ [squote] := rfl
  rw [h0] at h
  rcases List.mem_append.mp h with h1 | h1
  · rcases List.mem_append.mp h1 with h2 | h2
    · exact Or.inl (List.mem_singleton.mp h2)
    · rcases List.mem_flatMap.mp h2 with ⟨x, hx, hcx⟩
      by_cases hxs : x = squote
      · subst hxs
        rw [shQuoteEscChar_squote] at hcx
        simp only [List.mem_cons, List.not_mem_nil, or_false] at hcx
        rcases hcx with h3 | h3 | h3 | h3 | h3
        · exact Or.inl h3
        · exact Or.inr (Or.inl h3)
        · exact Or.inl h3
        · exact Or.inr (Or.inl h3)
        · exact Or.inl h3
      · rw [shQuoteEscChar_other hxs] at hcx
        exact Or.inr (Or.inr (List.mem_singleton.mp hcx ▸ hx))
  · exact Or.inl (List.mem_singleton.mp h1)

/-- C8 counterexample.  First conjunct: on the one-character value
consisting of a single quote, `shQuote` does not follow the claim's
quoting rule ("the four-character sequence that closes, escapes, and
reopens the quoting"); the source uses a five-character
quote–dquote–quote–dquote–quote sequence.  Remaining conjuncts: the
round-trip does not hold for every value, because `replaceAll` applies
ECMAScript dollar substitution and the template is rendered with both the
prompt and the session_id variable.  A prompt value `$&` renders the
literal placeholder text, so the tokenizer recovers the token
`\x7bprompt\x7d` rather than `$&`; and a prompt value `\x7bsession_id\x7d`
re-injects the session_id placeholder, which the later session_id pass
rewrites, so the tokenizer recovers `sid` rather than the value. -/
theorem c8_quoting_counterexample :
    shQuote (String.mk [squote]) ≠ shQuoteClaimRule (String.mk [squote]) ∧
    shTokenize (renderTemplate codexStartTemplate
        [("prompt", "$&"), ("session_id", "sid")]) = some ["codex", "\x7bprompt\x7d"] ∧
    ("\x7bprompt\x7d" : String) ≠ "$&" ∧
    shTokenize (renderTemplate codexStartTemplate
        [("prompt", "\x7bsession_id\x7d"), ("session_id", "sid")]) = some ["codex", "sid"] ∧
    ("sid" : String) ≠ "\x7bsession_id\x7d" := by
  exact ⟨by decide, by decide, by decide, by decide, by decide⟩

/-- C8 (amended): substitution of a value into a command template
individually shell-quotes it by wrapping it in single quotes and
replacing each embedded single quote with the five-character sequence
quote, dquote, quote, dquote, quote (close, double-quoted single quote,
reopen); for values containing no dollar sign and no left brace, a
POSIX-shell-style tokenizer applied to the quoted value — and to the
codex start template rendered with both the prompt and the session_id
variable — reproduces the original value exactly as one argument. -/
theorem c8_template_quoting (v sid : String)
    (hv1 : dollarc ∉ v.toList) (hv2 : lbrace ∉ v.toList) :
    shTokenize (shQuote v) = some [v] ∧
    shTokenize (renderTemplate codexStartTemplate
        [("prompt", v), ("session_id", sid)]) = some ["codex", v] := by
  have hqd : dollarc ∉ (shQuote v).toList := by
    intro h
    rcases shQuote_mem h with h1 | h1 | h1
    · exact absurd h1 (by decide)
    · exact absurd h1 (by decide)
    · exact hv1 h1
  have hqb : lbrace ∉ (shQuote v).toList := by
    intro h
    rcases shQuote_mem h with h1 | h1 | h1
    · exact absurd h1 (by decide)
    · exact absurd h1 (by decide)
    · exact hv2 h1
  have hg : ∀ m pre suf, getSubst m pre suf (shQuote v).data = (shQuote v).data :=
    fun m pre suf => getSubst_no_dollar m pre suf _ hqd
  have hl : lbrace = '\x7b' := by decide
  have hr : rbrace = '\x7d' := by decide
  have hpass1 : replaceAllStr codexStartTemplate
      (String.mk ([lbrace] ++ "prompt".toList ++ [rbrace])) (shQuote v) =
      String.mk ("codex ".toList ++ (shQuote v).toList) := by
    show String.mk (replaceAllGo _ _ _ _ _) = _
    simp [replaceAllGo, List.isPrefixOf, hl, hr, hg]
  have hnotin : lbrace ∉ ("codex ".toList ++ (shQuote v).toList) := by
    intro h
    rcases List.mem_append.mp h with h1 | h1
    · revert h1; decide
    · exact hqb h1
  have hpass2 : replaceAllStr (String.mk ("codex ".toList ++ (shQuote v).toList))
      (String.mk ([lbrace] ++ "session_id".toList ++ [rbrace])) (shQuote sid) =
      String.mk ("codex ".toList ++ (shQuote v).toList) := by
    show String.mk (replaceAllGo (lbrace :: ("session_id".toList ++ [rbrace]))
      (shQuote sid).toList _ [] ("codex ".toList ++ (shQuote v).toList)) = _
    rw [replaceAllGo_head_notin _ _ _ _ hnotin _ []]
  have hrt : renderTemplate codexStartTemplate [("prompt", v), ("session_id", sid)] =
      String.mk ("codex ".toList ++ (shQuote v).toList) := by
    show replaceAllStr (replaceAllStr codexStartTemplate
      (String.mk ([lbrace] ++ "prompt".toList ++ [rbrace])) (shQuote v))
      (String.mk ([lbrace] ++ "session_id".toList ++ [rbrace])) (shQuote sid) = _
    rw [hpass1, hpass2]
  refine ⟨shTokenize_shQuote v, ?_⟩
  rw [hrt]
  have h6 : ∀ (t : List Char) (acc : List String),
      shTokenizeAux ("codex ".toList ++ t) .normal false [] acc =
        shTokenizeAux t .normal false [] (acc ++ ["codex"]) := fun t acc => rfl
  show shTokenizeAux ("codex ".toList ++ (shQuote v).toList) .normal false [] [] = _
  rw [h6]
  have h0 : (shQuote v).toList = (shQuote v).toList ++ [] := by simp
  rw [h0, tok_shQuote_from_normal]
  simp [shTokenizeAux]

/-- Witness for C8 on the concrete dollar-free, brace-free value
`a`-quote-`b` with session id `sid-1`. -/
theorem c8_witness :
    dollarc ∉ (String.mk [Char.ofNat 97, squote, Char.ofNat 98]).toList ∧
    lbrace ∉ (String.mk [Char.ofNat 97, squote, Char.ofNat 98]).toList ∧
    shTokenize (shQuote (String.mk [Char.ofNat 97, squote, Char.ofNat 98])) =
      some [String.mk [Char.ofNat 97, squote, Char.ofNat 98]] ∧
    shTokenize (renderTemplate codexStartTemplate
        [("prompt", String.mk [Char.ofNat 97, squote, Char.ofNat 98]),
          ("session_id", "sid-1")]) =
      some ["codex", String.mk [Char.ofNat 97, squote, Char.ofNat 98]] := by
  refine ⟨by decide, by decide, ?_, ?_⟩
  · exact (c8_template_quoting (String.mk [Char.ofNat 97, squote, Char.ofNat 98]) "sid-1"
      (by decide) (by decide)).1
  · exact (c8_template_quoting (String.mk [Char.ofNat 97, squote, Char.ofNat 98]) "sid-1"
      (by decide) (by decide)).2

/-! ### Lemmas: event bookkeeping of the loop -/

lemma invCount_append (xs ys : List EngineEvent) :
    invCount (xs ++ ys) = invCount xs + invCount ys := by
  induction xs with
  | nil => simp [invCount]
  | cons x xs ih => cases x <;> simp [invCount, ih] <;> omega

lemma invocationsOf_append (xs ys : List EngineEvent) :
    invocationsOf (xs ++ ys) = invocationsOf xs ++ invocationsOf ys := by
  induction xs with
  | nil => simp [invocationsOf]
  | cons x xs ih => cases x <;> simp [invocationsOf, ih]

lemma invCount_eq_length (xs : List EngineEvent) :
    invCount xs = (invocationsOf xs).length := by
  induction xs with
  | nil => simp [invCount, invocationsOf]
  | cons x xs ih => cases x <;> simp [invCount, invocationsOf, ih]

lemma inv_mem_invocationsOf {a : AgentName} {r : Nat} {p : String} {xs : List EngineEvent}
    (h : EngineEvent.invocation a r p ∈ xs) : (a, r) ∈ invocationsOf xs := by
  induction xs with
  | nil => cases h
  | cons x xs ih =>
    rcases List.mem_cons.mp h with h1 | h2
    · subst h1; simp [invocationsOf]
    · have hx := ih h2
      cases x <;> simp [invocationsOf, hx]

/-! ### Lemmas: `invokeTurn` case equations -/

lemma invokeTurn_err {rid : String} (h : rid ≠ "") (f t : AgentName) (rd : Nat) (p m : String)
    (st : LoopSt) :
    invokeTurn rid f t rd p (.error m) st =
      ({ st with events := st.events ++ [.invocation f rd p] }, .threw m) := by
  simp [invokeTurn, h]

lemma invokeTurn_ok_nonempty {rid : String} (h : rid ≠ "") {tr : TurnResult}
    (htr : ¬ jsTrim tr.text = "") (f t : AgentName) (rd : Nat) (p : String) (st : LoopSt) :
    invokeTurn rid f t rd p (.ok tr) st =
      (logTurn rid f t rd p (jsTrim tr.text) tr.stdout tr.stderr
        { st with events := st.events ++ [.invocation f rd p], count := 0 }, .returned tr.text) := by
  simp [invokeTurn, h, htr]

lemma invokeTurn_ok_empty_first {rid : String} (h : rid ≠ "") {tr : TurnResult}
    (htr : jsTrim tr.text = "") {st : LoopSt} (hc : st.count = 0) (f t : AgentName) (rd : Nat)
    (p : String) :
    invokeTurn rid f t rd p (.ok tr) st =
      (logTurn rid f t rd p "" tr.stdout tr.stderr
        { st with events := st.events ++ [.invocation f rd p], count := st.count + 1 },
        .returned tr.text) := by
  simp [invokeTurn, h, htr, hc]

lemma invokeTurn_ok_empty_abort {rid : String} (h : rid ≠ "") {tr : TurnResult}
    (htr : jsTrim tr.text = "") {st : LoopSt} (hc : 1 ≤ st.count) (f t : AgentName) (rd : Nat)
    (p : String) :
    invokeTurn rid f t rd p (.ok tr) st =
      ({ st with events := st.events ++ [.invocation f rd p], count := st.count + 1 },
        .threw emptyAbortMsg) := by
  have : st.count + 1 ≥ 2 := by omega
  simp [invokeTurn, h, htr, this]

/-! ### Lemmas: what one turn and one round contribute to the trace -/

lemma invokeTurn_anatomy {rid : String} {f t : AgentName} {rd : Nat} {p : String}
    {res : Except String TurnResult} {st stX : LoopSt} {out : TurnOut}
    (h : invokeTurn rid f t rd p res st = (stX, out)) :
    ∃ tail, stX.events = st.events ++ tail ∧
      (invocationsOf tail = [] ∨ invocationsOf tail = [(f, rd)]) ∧
      (∀ text, out = .returned text → invocationsOf tail = [(f, rd)]) := by
  unfold invokeTurn logTurn at h
  repeat' split at h
  all_goals (injection h with h1 h2; subst h1; subst h2)
  · exact ⟨[], by simp, Or.inl rfl, by simp⟩
  · exact ⟨_, rfl, Or.inr (by simp [invocationsOf]), by simp⟩
  · exact ⟨_, rfl, Or.inr (by simp [invocationsOf]), by simp⟩
  · exact ⟨_, by simp; rfl, Or.inr (by simp [invocationsOf]), fun _ _ => by
      simp [invocationsOf]⟩
  · exact ⟨_, by simp; rfl, Or.inr (by simp [invocationsOf]), fun _ _ => by
      simp [invocationsOf]⟩

lemma roundStep_anatomy (cfg : EngineConfig) (rid topic : String) (e : RoundEnv) (round : Nat)
    (st : LoopSt) :
    ∃ tail, ((roundStep cfg rid topic e round st).1).events = st.events ++ tail ∧
      (invocationsOf tail = [] ∨ invocationsOf tail = [(.codex, round)] ∨
        invocationsOf tail = [(.codex, round), (.gemini, round)]) ∧
      ((roundStep cfg rid topic e round st).2 = none →
        invocationsOf tail = [(.codex, round), (.gemini, round)]) := by
  unfold roundStep
  by_cases h1 : e.stopAtTop = true
  · rw [if_pos h1]
    exact ⟨[], by simp, Or.inl rfl, by simp⟩
  · rw [if_neg h1]
    split
    next st1 m heqC =>
      obtain ⟨t1, ht1, hs1, _⟩ := invokeTurn_anatomy heqC
      rw [setStatusEv] at ht1
      refine ⟨.debateState st.status round st.reason :: t1, by simp [ht1], ?_, by simp⟩
      rcases hs1 with hs1 | hs1 <;> simp [invocationsOf, hs1]
    next st1 codexText heqC =>
      obtain ⟨t1, ht1, _, hr1⟩ := invokeTurn_anatomy heqC
      have ht1' : st1.events =
          (st.events ++ [.debateState st.status round st.reason]) ++ t1 := by
        rw [ht1, setStatusEv]
      have hi1 : invocationsOf t1 = [(AgentName.codex, round)] := hr1 _ rfl
      by_cases h2 : e.stopAfterCodex = true
      · rw [if_pos h2]
        refine ⟨.debateState st.status round st.reason :: t1, by simp [ht1'], ?_, by simp⟩
        simp [invocationsOf, hi1]
      · rw [if_neg h2]
        split
        next st2 m heqG =>
          obtain ⟨t2, ht2, hs2, _⟩ := invokeTurn_anatomy heqG
          refine ⟨.debateState st.status round st.reason :: (t1 ++ t2),
            by simp [ht2, ht1'], ?_, by simp⟩
          rcases hs2 with hs2 | hs2 <;>
            simp [invocationsOf, invocationsOf_append, hi1, hs2]
        next st2 geminiText heqG =>
          obtain ⟨t2, ht2, _, hr2⟩ := invokeTurn_anatomy heqG
          have hi2 : invocationsOf t2 = [(AgentName.gemini, round)] := hr2 _ rfl
          have hpair :
              invocationsOf (EngineEvent.debateState st.status round st.reason :: (t1 ++ t2)) =
                [(AgentName.codex, round), (AgentName.gemini, round)] := by
            simp [invocationsOf, invocationsOf_append, hi1, hi2]
          by_cases h3 : e.stopAfterGemini = true
          · rw [if_pos h3]
            exact ⟨_, by simp [ht2, ht1'], Or.inr (Or.inr hpair), by simp⟩
          · rw [if_neg h3]
            by_cases h4 : (cfg.consensus codexText || cfg.consensus geminiText) = true
            · rw [if_pos h4]
              exact ⟨_, by simp [ht2, ht1'], Or.inr (Or.inr hpair), by simp⟩
            · rw [if_neg h4]
              by_cases h5 : e.pauseAtBoundary = true
              · rw [if_pos h5]
                by_cases h6 : e.stopDuringPause = true
                · rw [if_pos h6]
                  refine ⟨.debateState st.status round st.reason :: (t1 ++ t2) ++
                    [.debateState .paused st2.round (some "paused at turn boundary")],
                    by simp [setStatusEv, ht2, ht1'], ?_, by simp⟩
                  refine Or.inr (Or.inr ?_)
                  rw [invocationsOf_append, hpair]
                  simp [invocationsOf]
                · rw [if_neg h6]
                  refine ⟨.debateState st.status round st.reason :: (t1 ++ t2) ++
                    [.debateState .paused st2.round (some "paused at turn boundary"),
                     .debateState .running st2.round (some "resumed")],
                    by simp [setStatusEv, ht2, ht1'], ?_, fun _ => ?_⟩
                  · refine Or.inr (Or.inr ?_)
                    rw [invocationsOf_append, hpair]
                    simp [invocationsOf]
                  · rw [invocationsOf_append, hpair]
                    simp [invocationsOf]
              · rw [if_neg h5]
                exact ⟨_, by simp [ht2, ht1'], Or.inr (Or.inr hpair), fun _ => hpair⟩

lemma roundStep_exit_ne_natural (cfg : EngineConfig) (rid topic : String) (e : RoundEnv)
    (round : Nat) (st : LoopSt) :
    (roundStep cfg rid topic e round st).2 ≠ some .natural := by
  unfold roundStep
  repeat' split
  all_goals simp_all

/-! ### Lemmas: composing the loop by rounds -/

lemma runRoundsAux_add (cfg : EngineConfig) (rid topic : String) (envs : Nat → RoundEnv)
    (a b round : Nat) (st : LoopSt) :
    runRoundsAux cfg rid topic envs (a + b) round st =
      (if (runRoundsAux cfg rid topic envs a round st).2 = .natural then
        runRoundsAux cfg rid topic envs b (round + a)
          (runRoundsAux cfg rid topic envs a round st).1
      else runRoundsAux cfg rid topic envs a round st) := by
  induction a generalizing round st with
  | zero => simp [runRoundsAux]
  | succ a ih =>
    have h : a + 1 + b = (a + b) + 1 := by omega
    rw [h]
    cases hstep : roundStep cfg rid topic (envs round) round st with
    | mk st1 out =>
      cases out with
      | some ex =>
        have hne : ex ≠ .natural := by
          have hx := roundStep_exit_ne_natural cfg rid topic (envs round) round st
          rw [hstep] at hx
          simpa using hx
        simp [runRoundsAux, hstep, hne]
      | none =>
        simp only [runRoundsAux, hstep]
        rw [ih]
        have harith : round + 1 + a = round + (a + 1) := by omega
        rw [harith]

lemma runRoundsAux_events_ext (cfg : EngineConfig) (rid topic : String) (envs : Nat → RoundEnv)
    (fuel : Nat) :
    ∀ (round : Nat) (st : LoopSt),
      ∃ tail, ((runRoundsAux cfg rid topic envs fuel round st).1).events = st.events ++ tail := by
  induction fuel with
  | zero => exact fun round st => ⟨[], by simp [runRoundsAux]⟩
  | succ fuel ih =>
    intro round st
    cases hstep : roundStep cfg rid topic (envs round) round st with
    | mk st1 out =>
      have hana := roundStep_anatomy cfg rid topic (envs round) round st
      rw [hstep] at hana
      obtain ⟨t1, ht1, -, -⟩ := hana
      simp only [] at ht1
      cases out with
      | some ex => exact ⟨t1, by simp [runRoundsAux, hstep]; exact ht1⟩
      | none =>
        obtain ⟨t2, ht2⟩ := ih (round + 1) st1
        refine ⟨t1 ++ t2, ?_⟩
        simp only [runRoundsAux, hstep]
        rw [ht2, ht1, List.append_assoc]

/-- A natural exit means every remaining round ran both turns: the trace
gains exactly `2 * fuel` invocations, with rounds in
`[round, round + fuel)`. -/
lemma runRoundsAux_natural (cfg : EngineConfig) (rid topic : String) (envs : Nat → RoundEnv)
    (fuel : Nat) :
    ∀ (round : Nat) (st st' : LoopSt),
      runRoundsAux cfg rid topic envs fuel round st = (st', .natural) →
      ∃ ps, invocationsOf st'.events = invocationsOf st.events ++ ps ∧
        ps.length = 2 * fuel ∧ ∀ pr ∈ ps, round ≤ pr.2 ∧ pr.2 < round + fuel := by
  induction fuel with
  | zero =>
    intro round st st' h
    simp only [runRoundsAux] at h
    cases h
    exact ⟨[], by simp, by simp, by simp⟩
  | succ fuel ih =>
    intro round st st' h
    cases hstep : roundStep cfg rid topic (envs round) round st with
    | mk st1 out =>
      have hana := roundStep_anatomy cfg rid topic (envs round) round st
      rw [hstep] at hana
      obtain ⟨t1, ht1, -, hpair⟩ := hana
      cases out with
      | some ex =>
        simp only [runRoundsAux, hstep] at h
        cases h
        have hx := roundStep_exit_ne_natural cfg rid topic (envs round) round st
        rw [hstep] at hx
        simp at hx
      | none =>
        simp only [runRoundsAux, hstep] at h
        obtain ⟨ps, hps, hlen, hbound⟩ := ih (round + 1) st1 st' h
        refine ⟨[(AgentName.codex, round), (AgentName.gemini, round)] ++ ps, ?_,
          by simp [hlen]; omega, ?_⟩
        · rw [hps, ht1, invocationsOf_append, hpair rfl, List.append_assoc]
        · intro pr hpr
          rcases List.mem_append.mp hpr with hl | hr
          · simp only [List.mem_cons, List.not_mem_nil, or_false] at hl
            rcases hl with h1 | h1 <;> subst h1 <;> simp <;> omega
          · have := hbound pr hr
            omega

lemma runRoundsAux_turnSeq (cfg : EngineConfig) (rid topic : String) (envs : Nat → RoundEnv)
    (fuel : Nat) :
    ∀ (round : Nat) (st : LoopSt),
      ∃ tail, ((runRoundsAux cfg rid topic envs fuel round st).1).events = st.events ++ tail ∧
        TurnSeq round (invocationsOf tail) := by
  induction fuel with
  | zero => exact fun round st => ⟨[], by simp [runRoundsAux], TurnSeq.nil round⟩
  | succ fuel ih =>
    intro round st
    cases hstep : roundStep cfg rid topic (envs round) round st with
    | mk st1 out =>
      have hana := roundStep_anatomy cfg rid topic (envs round) round st
      rw [hstep] at hana
      obtain ⟨t1, ht1, hshape, hpair⟩ := hana
      simp only [] at ht1
      cases out with
      | some ex =>
        refine ⟨t1, by simp [runRoundsAux, hstep]; exact ht1, ?_⟩
        rcases hshape with hs | hs | hs <;> rw [hs]
        · exact TurnSeq.nil round
        · exact TurnSeq.lone round
        · exact TurnSeq.pair (TurnSeq.nil (round + 1))
      | none =>
        obtain ⟨t2, ht2, hts⟩ := ih (round + 1) st1
        refine ⟨t1 ++ t2, ?_, ?_⟩
        · simp only [runRoundsAux, hstep]
          rw [ht2, ht1, List.append_assoc]
        · rw [invocationsOf_append, hpair rfl]
          exact TurnSeq.pair hts

/-- C4.  Turn order: in every run of the turn loop — whatever the
control-flag schedule, runner replies and configuration — the sequence of
runner invocations is, per round, the initiator (codex) first and the
responder (gemini) second, rounds in increasing order from 1, a round cut
short contributing its initiator turn only.  The embedding awaits each
invocation before the next checkpoint, so at most one invocation is ever
outstanding.  -/
theorem c4_turn_order (cfg : EngineConfig) (rid topic : String) (maxRounds : Nat)
    (envs : Nat → RoundEnv) :
    TurnSeq 1 (invocationsOf (runLoop cfg rid topic maxRounds envs).events) := by
  obtain ⟨tail, htail, hts⟩ :=
    runRoundsAux_turnSeq cfg rid topic envs maxRounds 1 initLoopSt
  cases hrun : runRoundsAux cfg rid topic envs maxRounds 1 initLoopSt with
  | mk st ex =>
    rw [hrun] at htail
    simp only [] at htail
    have hst : st.events = tail := by simpa [initLoopSt] using htail
    cases ex <;>
      (simp only [runLoop, hrun]
       simp [invocationsOf_append, invocationsOf, hst]
       simpa using hts)

/-- C3.  Consensus: if the run reaches round `r` (the first `r - 1`
rounds all completed without exiting), round `r` is undisturbed by stop
flags, both turns reply with non-whitespace text, and either reply
matches the consensus pattern, then the run terminates with status
`completed`, reason "consensus detected", final round `r`, and exactly
`2 * r` runner invocations — none after round `r`. -/
theorem c3_consensus_terminates (cfg : EngineConfig) (rid topic : String)
    (maxRounds r : Nat) (envs : Nat → RoundEnv) (st' : LoopSt) (ct gt : TurnResult)
    (hrid : rid ≠ "") (hr1 : 1 ≤ r) (hr2 : r ≤ maxRounds)
    (hpre : runRoundsAux cfg rid topic envs (r - 1) 1 initLoopSt = (st', .natural))
    (henv1 : (envs r).stopAtTop = false)
    (henv2 : (envs r).stopAfterCodex = false)
    (henv3 : (envs r).stopAfterGemini = false)
    (hct : (envs r).codexResult = .ok ct)
    (hgt : (envs r).geminiResult = .ok gt)
    (hcne : ¬ jsTrim ct.text = "")
    (hgne : ¬ jsTrim gt.text = "")
    (hcons : (cfg.consensus ct.text || cfg.consensus gt.text) = true) :
    (runLoop cfg rid topic maxRounds envs).status = .completed ∧
    (runLoop cfg rid topic maxRounds envs).reason = "consensus detected" ∧
    (runLoop cfg rid topic maxRounds envs).round = r ∧
    invCount (runLoop cfg rid topic maxRounds envs).events = 2 * r := by
  obtain ⟨ps, hps, hlen, -⟩ :=
    runRoundsAux_natural cfg rid topic envs (r - 1) 1 initLoopSt st' hpre
  have hpcount : invCount st'.events = 2 * (r - 1) := by
    rw [invCount_eq_length, hps]
    simp [initLoopSt, invocationsOf, hlen]
  have hsplit : (r - 1) + (maxRounds - (r - 1)) = maxRounds := by omega
  have hdec := runRoundsAux_add cfg rid topic envs (r - 1) (maxRounds - (r - 1)) 1 initLoopSt
  rw [hsplit, hpre] at hdec
  simp only [reduceCtorEq, if_pos] at hdec
  have hone : 1 + (r - 1) = r := by omega
  have hb : maxRounds - (r - 1) = (maxRounds - r) + 1 := by omega
  rw [hone, hb] at hdec
  simp only [runRoundsAux, roundStep, henv1, henv2, henv3, hct, hgt,
    Bool.false_eq_true, if_false] at hdec
  rw [invokeTurn_ok_nonempty hrid hcne] at hdec
  simp only [] at hdec
  rw [invokeTurn_ok_nonempty hrid hgne] at hdec
  simp only [hcons, if_true] at hdec
  simp only [runLoop, hdec]
  refine ⟨by trivial, by trivial, ?_, ?_⟩
  · simp [logTurn, setStatusEv]
  · simp [logTurn, setStatusEv, invCount_append, invCount, hpcount]
    omega

/-- C3 witness: a concrete one-round consensus run. -/
theorem c3_witness :
    (runLoop cfgW "run_w" "topic" 2 (fun _ => benignEnv ctW gtW)).status = .completed ∧
    (runLoop cfgW "run_w" "topic" 2 (fun _ => benignEnv ctW gtW)).reason =
      "consensus detected" ∧
    (runLoop cfgW "run_w" "topic" 2 (fun _ => benignEnv ctW gtW)).round = 1 ∧
    invCount (runLoop cfgW "run_w" "topic" 2 (fun _ => benignEnv ctW gtW)).events = 2 * 1 :=
  c3_consensus_terminates cfgW "run_w" "topic" 2 1 (fun _ => benignEnv ctW gtW)
    initLoopSt ctW gtW (by decide) (by decide) (by decide) rfl rfl rfl rfl rfl rfl
    (by decide) (by decide) (by decide)

lemma runLoop_events_shape (cfg : EngineConfig) (rid topic : String) (maxRounds : Nat)
    (envs : Nat → RoundEnv) :
    ∃ t, (runLoop cfg rid topic maxRounds envs).events =
      ((runRoundsAux cfg rid topic envs maxRounds 1 initLoopSt).1).events ++ t := by
  unfold runLoop
  cases runRoundsAux cfg rid topic envs maxRounds 1 initLoopSt with
  | mk st ex => exact ⟨_, List.append_assoc _ _ _⟩

/-- C5.  Pause at the turn boundary: if the run reaches round `r`, round
`r` completes both turns without stop flags or consensus, and the pause
flag is observed at the boundary (i.e. `pauseDebate` was called during
round `r`), then the `paused` status event is emitted carrying round
exactly `r`, with exactly `2 * r` invocations before it and none of a
later round — no turn of round `r + 1` has been issued when the status
becomes `paused`. -/
theorem c5_pause_boundary (cfg : EngineConfig) (rid topic : String)
    (maxRounds r : Nat) (envs : Nat → RoundEnv) (st' : LoopSt) (ct gt : TurnResult)
    (hrid : rid ≠ "") (hr1 : 1 ≤ r) (hr2 : r ≤ maxRounds)
    (hpre : runRoundsAux cfg rid topic envs (r - 1) 1 initLoopSt = (st', .natural))
    (henv1 : (envs r).stopAtTop = false)
    (henv2 : (envs r).stopAfterCodex = false)
    (henv3 : (envs r).stopAfterGemini = false)
    (hct : (envs r).codexResult = .ok ct)
    (hgt : (envs r).geminiResult = .ok gt)
    (hcne : ¬ jsTrim ct.text = "")
    (hgne : ¬ jsTrim gt.text = "")
    (hcons : (cfg.consensus ct.text || cfg.consensus gt.text) = false)
    (hpause : (envs r).pauseAtBoundary = true) :
    ∃ pre post,
      (runLoop cfg rid topic maxRounds envs).events =
        pre ++ [.debateState .paused r (some "paused at turn boundary")] ++ post ∧
      invCount pre = 2 * r ∧
      (∀ a rd p, EngineEvent.invocation a rd p ∈ pre → rd ≤ r) := by
  obtain ⟨ps, hps, hlen, hbound⟩ :=
    runRoundsAux_natural cfg rid topic envs (r - 1) 1 initLoopSt st' hpre
  have hpcount : invCount st'.events = 2 * (r - 1) := by
    rw [invCount_eq_length, hps]
    simp [initLoopSt, invocationsOf, hlen]
  have hsplit : (r - 1) + (maxRounds - (r - 1)) = maxRounds := by omega
  have hdec := runRoundsAux_add cfg rid topic envs (r - 1) (maxRounds - (r - 1)) 1 initLoopSt
  rw [hsplit, hpre] at hdec
  simp only [reduceCtorEq, if_pos] at hdec
  have hone : 1 + (r - 1) = r := by omega
  have hb : maxRounds - (r - 1) = (maxRounds - r) + 1 := by omega
  rw [hone, hb] at hdec
  simp only [runRoundsAux, roundStep, henv1, henv2, henv3, hct, hgt,
    Bool.false_eq_true, if_false] at hdec
  rw [invokeTurn_ok_nonempty hrid hcne] at hdec
  simp only [] at hdec
  rw [invokeTurn_ok_nonempty hrid hgne] at hdec
  simp only [hcons, Bool.false_eq_true, if_false, hpause, if_true] at hdec
  obtain ⟨tfin, htfin⟩ := runLoop_events_shape cfg rid topic maxRounds envs
  have hprecount : invCount (st'.events ++
      [EngineEvent.debateState st'.status r st'.reason,
       EngineEvent.invocation .codex r (mkCodexPrompt topic r st'.latestGemini),
       EngineEvent.turnLog
         { runId := rid, round := r, fromAgent := .codex, toAgent := .gemini,
           prompt := mkCodexPrompt topic r st'.latestGemini, response := jsTrim ct.text,
           rawStdout := ct.stdout, rawStderr := ct.stderr },
       EngineEvent.invocation .gemini r (mkGeminiPrompt topic r ct.text),
       EngineEvent.turnLog
         { runId := rid, round := r, fromAgent := .gemini, toAgent := .codex,
           prompt := mkGeminiPrompt topic r ct.text, response := jsTrim gt.text,
           rawStdout := gt.stdout, rawStderr := gt.stderr }]) = 2 * r := by
    rw [invCount_append]
    simp [invCount, hpcount]
    omega
  have hpremem : ∀ (a : AgentName) (rd : Nat) (p : String),
      EngineEvent.invocation a rd p ∈ (st'.events ++
        [EngineEvent.debateState st'.status r st'.reason,
         EngineEvent.invocation .codex r (mkCodexPrompt topic r st'.latestGemini),
         EngineEvent.turnLog
           { runId := rid, round := r, fromAgent := .codex, toAgent := .gemini,
             prompt := mkCodexPrompt topic r st'.latestGemini, response := jsTrim ct.text,
             rawStdout := ct.stdout, rawStderr := ct.stderr },
         EngineEvent.invocation .gemini r (mkGeminiPrompt topic r ct.text),
         EngineEvent.turnLog
           { runId := rid, round := r, fromAgent := .gemini, toAgent := .codex,
             prompt := mkGeminiPrompt topic r ct.text, response := jsTrim gt.text,
             rawStdout := gt.stdout, rawStderr := gt.stderr }]) → rd ≤ r := by
    intro a rd p h
    rcases List.mem_append.mp h with hl | hr
    · have hmem := inv_mem_invocationsOf hl
      rw [hps] at hmem
      simp only [initLoopSt, invocationsOf, List.nil_append] at hmem
      have := hbound _ hmem
      omega
    · simp only [List.mem_cons, List.not_mem_nil, or_false] at hr
      rcases hr with h1 | h1 | h1 | h1 | h1
      · injection h1
      · injection h1 with h1a h1b h1c; omega
      · injection h1
      · injection h1 with h1a h1b h1c; omega
      · injection h1
  by_cases hstop : (envs r).stopDuringPause = true
  · rw [if_pos hstop] at hdec
    refine ⟨_, tfin, ?_, hprecount, hpremem⟩
    rw [htfin, hdec]
    simp [setStatusEv, logTurn, List.append_assoc]
  · rw [if_neg hstop] at hdec
    obtain ⟨stc, hdec', hstcev⟩ :
        ∃ stc, runRoundsAux cfg rid topic envs maxRounds 1 initLoopSt =
            runRoundsAux cfg rid topic envs (maxRounds - r) (r + 1) stc ∧
          stc.events = (st'.events ++
            [EngineEvent.debateState st'.status r st'.reason,
             EngineEvent.invocation .codex r (mkCodexPrompt topic r st'.latestGemini),
             EngineEvent.turnLog
               { runId := rid, round := r, fromAgent := .codex, toAgent := .gemini,
                 prompt := mkCodexPrompt topic r st'.latestGemini, response := jsTrim ct.text,
                 rawStdout := ct.stdout, rawStderr := ct.stderr },
             EngineEvent.invocation .gemini r (mkGeminiPrompt topic r ct.text),
             EngineEvent.turnLog
               { runId := rid, round := r, fromAgent := .gemini, toAgent := .codex,
                 prompt := mkGeminiPrompt topic r ct.text, response := jsTrim gt.text,
                 rawStdout := gt.stdout, rawStderr := gt.stderr }]) ++
            [EngineEvent.debateState .paused r (some "paused at turn boundary"),
             EngineEvent.debateState .running r (some "resumed")] :=
      ⟨_, hdec, by simp [setStatusEv, logTurn, List.append_assoc]⟩
    obtain ⟨t2, ht2⟩ := runRoundsAux_events_ext cfg rid topic envs (maxRounds - r) (r + 1) stc
    refine ⟨_, .debateState .running r (some "resumed") :: (t2 ++ tfin), ?_, hprecount, hpremem⟩
    rw [htfin, hdec', ht2, hstcev]
    simp [List.append_assoc]

/-- C5 witness: a concrete paused run. -/
theorem c5_witness :
    ∃ pre post,
      (runLoop cfgP "run_w" "t" 1 envsP).events =
        pre ++ [.debateState .paused 1 (some "paused at turn boundary")] ++ post ∧
      invCount pre = 2 * 1 ∧
      (∀ a rd p, EngineEvent.invocation a rd p ∈ pre → rd ≤ 1) :=
  c5_pause_boundary cfgP "run_w" "t" 1 1 envsP initLoopSt ctW gtP (by decide) (by decide)
    (by decide) rfl rfl rfl rfl rfl rfl (by decide) (by decide) (by decide) rfl

/-- C7.  Empty-response exhaustion: whenever the run reaches a round
whose initiator turn yields whitespace-only text and either the previous
turn was already empty (`1 ≤ count`) or the responder turn is empty too,
the run aborts: status `stopped`, the abort message as the run's reason,
and an `error` notification in the trace.  A non-empty response resets
the consecutive-empty counter to zero. -/
theorem c7_empty_exhaustion (cfg : EngineConfig) (rid topic : String)
    (maxRounds r : Nat) (envs : Nat → RoundEnv) (st' : LoopSt) (ct gt : TurnResult)
    (hrid : rid ≠ "") (hr1 : 1 ≤ r) (hr2 : r ≤ maxRounds)
    (hpre : runRoundsAux cfg rid topic envs (r - 1) 1 initLoopSt = (st', .natural))
    (henv1 : (envs r).stopAtTop = false)
    (henv2 : (envs r).stopAfterCodex = false)
    (hct : (envs r).codexResult = .ok ct)
    (hgt : (envs r).geminiResult = .ok gt)
    (hcE : jsTrim ct.text = "")
    (habort : 1 ≤ st'.count ∨ jsTrim gt.text = "") :
    ((runLoop cfg rid topic maxRounds envs).status = .stopped ∧
      (runLoop cfg rid topic maxRounds envs).reason = emptyAbortMsg ∧
      EngineEvent.errorEv emptyAbortMsg ∈ (runLoop cfg rid topic maxRounds envs).events) ∧
    (∀ (rid2 : String) (f t : AgentName) (rd : Nat) (p : String) (tr : TurnResult)
      (st2 : LoopSt), rid2 ≠ "" → ¬ jsTrim tr.text = "" →
      ((invokeTurn rid2 f t rd p (.ok tr) st2).1).count = 0) := by
  have hreset : ∀ (rid2 : String) (f t : AgentName) (rd : Nat) (p : String)
      (tr : TurnResult) (st2 : LoopSt), rid2 ≠ "" → ¬ jsTrim tr.text = "" →
      ((invokeTurn rid2 f t rd p (.ok tr) st2).1).count = 0 := by
    intro rid2 f t rd p tr st2 h2 htr
    rw [invokeTurn_ok_nonempty h2 htr]
    simp [logTurn]
  have hsplit : (r - 1) + (maxRounds - (r - 1)) = maxRounds := by omega
  have hdec := runRoundsAux_add cfg rid topic envs (r - 1) (maxRounds - (r - 1)) 1 initLoopSt
  rw [hsplit, hpre] at hdec
  simp only [reduceCtorEq, if_pos] at hdec
  have hone : 1 + (r - 1) = r := by omega
  have hb : maxRounds - (r - 1) = (maxRounds - r) + 1 := by omega
  rw [hone, hb] at hdec
  simp only [runRoundsAux, roundStep, henv1, henv2, hct, hgt,
    Bool.false_eq_true, if_false] at hdec
  by_cases hc1 : 1 ≤ st'.count
  · have habort1 : 1 ≤ (setStatusEv st'.status st'.reason { st' with round := r }).count := by
      simp [setStatusEv]
      omega
    rw [invokeTurn_ok_empty_abort hrid hcE habort1] at hdec
    simp only [] at hdec
    simp only [runLoop, hdec]
    exact ⟨⟨by trivial, by trivial, by simp⟩, hreset⟩
  · have hc0 : (setStatusEv st'.status st'.reason { st' with round := r }).count = 0 := by
      simp [setStatusEv]
      omega
    rw [invokeTurn_ok_empty_first hrid hcE hc0] at hdec
    simp only [] at hdec
    have hgE : jsTrim gt.text = "" := by
      rcases habort with h | h
      · omega
      · exact h
    rw [invokeTurn_ok_empty_abort hrid hgE (by simp [logTurn, setStatusEv])] at hdec
    simp only [] at hdec
    simp only [runLoop, hdec]
    exact ⟨⟨by trivial, by trivial, by simp⟩, hreset⟩

/-- C7 witness: two consecutive whitespace-only turns abort a concrete
run. -/
theorem c7_witness :
    (((runLoop cfgP "run_w" "t" 1 (fun _ => benignEnv ctE gtE)).status = .stopped ∧
      (runLoop cfgP "run_w" "t" 1 (fun _ => benignEnv ctE gtE)).reason = emptyAbortMsg ∧
      EngineEvent.errorEv emptyAbortMsg ∈
        (runLoop cfgP "run_w" "t" 1 (fun _ => benignEnv ctE gtE)).events) ∧
    (∀ (rid2 : String) (f t : AgentName) (rd : Nat) (p : String) (tr : TurnResult)
      (st2 : LoopSt), rid2 ≠ "" → ¬ jsTrim tr.text = "" →
      ((invokeTurn rid2 f t rd p (.ok tr) st2).1).count = 0)) :=
  c7_empty_exhaustion cfgP "run_w" "t" 1 1 (fun _ => benignEnv ctE gtE) initLoopSt ctE gtE
    (by decide) (by decide) (by decide) rfl rfl rfl rfl rfl (by decide) (Or.inr (by decide))

set_option maxRecDepth 8000 in
/-- C1.  Context-trimming, evaluated at the failing input: in a run whose
round-1 responder reply is 180 characters long, the logged transcript
entry keeps all 180 characters (that half of the claim holds), but the
round-2 initiator prompt embeds the whole 180-character reply verbatim —
`runLoop` builds the prompt with no `textLimit` truncation at all, so the
forwarded context is not limited to any `textLimit < 180` (the
repository's own test demands at most 100 characters forwarded). -/
theorem c1_context_trimming_code_bug :
    (((runLoop cfgP "run_w" "topic" 2 envsC1).entries.get? 1).map TranscriptEntry.response =
        some (String.mk (List.replicate 180 'g'))) ∧
    (String.mk (List.replicate 180 'g')).length = 180 ∧
    EngineEvent.invocation .codex 2
        (codexRoundPrompt "topic" 2 (String.mk (List.replicate 180 'g'))) ∈
      (runLoop cfgP "run_w" "topic" 2 envsC1).events ∧
    codexRoundPrompt "topic" 2 (String.mk (List.replicate 180 'g')) =
      "토론 주제: topic\n토론 라운드: 2\n상대(Gemini) 최신 의견:\n" ++
        String.mk (List.replicate 180 'g') ++
        "\n상대 의견을 반박/수용으로 나누어 답변하세요." := by
  refine ⟨by decide, by decide, by decide, by decide⟩

/-- C2.  `startDebate` guards, in source order: an empty or
whitespace-only topic is rejected; a live execution promise is rejected
with the already-running error; agents not both `ready` are rejected;
and composing two starts, a successful `startDebate` followed
immediately by a second one (with any valid topic) makes the second fail
with the already-running error — at most one run is ever active. -/
theorem c2_startDebate_guards (cfg : EngineConfig) :
    (∀ (st : EngineState) (topic : String) (mr : Option Nat) (stamp suffix : String),
      jsTrim topic = "" →
      startDebate cfg st topic mr stamp suffix = .error "토론 주제가 비어 있습니다.") ∧
    (∀ (st : EngineState) (topic : String) (mr : Option Nat) (stamp suffix : String),
      ¬ jsTrim topic = "" → st.executionActive = true →
      startDebate cfg st topic mr stamp suffix = .error "이미 실행 중인 토론이 있습니다.") ∧
    (∀ (st : EngineState) (topic : String) (mr : Option Nat) (stamp suffix : String),
      ¬ jsTrim topic = "" → st.executionActive = false →
      ¬(st.gemini.status = .ready ∧ st.codex.status = .ready) →
      startDebate cfg st topic mr stamp suffix =
        .error "Gemini와 Codex 모두 ready 상태여야 시작할 수 있습니다.") ∧
    (∀ (st st1 : EngineState) (topic : String) (mr : Option Nat) (stamp suffix : String)
      (topic2 : String) (mr2 : Option Nat) (stamp2 suffix2 : String),
      startDebate cfg st topic mr stamp suffix = .ok st1 →
      ¬ jsTrim topic2 = "" →
      startDebate cfg st1 topic2 mr2 stamp2 suffix2 =
        .error "이미 실행 중인 토론이 있습니다.") := by
  refine ⟨?_, ?_, ?_, ?_⟩
  · intro st topic mr stamp suffix h
    simp [startDebate, h]
  · intro st topic mr stamp suffix h hx
    simp [startDebate, h, hx]
  · intro st topic mr stamp suffix h hx hr
    simp [startDebate, h, hx, hr]
  · intro st st1 topic mr stamp suffix topic2 mr2 stamp2 suffix2 hok h2
    have hact : st1.executionActive = true := by
      unfold startDebate at hok
      repeat' split at hok
      all_goals cases hok
      all_goals rfl
    simp [startDebate, h2, hact]

/-- C2 witness: a second `startDebate` right after a successful one fails
with the already-running error. -/
theorem c2_witness :
    startDebate cfgW
      { stReady with
          debate :=
            { status := .running, runId := makeRunId "d" "x", round := 0,
              topic := "topic", maxRounds := 2, reason := none }
          executionActive := true } "topic2" none "d2" "x2" =
      .error "이미 실행 중인 토론이 있습니다." :=
  (c2_startDebate_guards cfgW).2.2.2 stReady _ "topic" none "d" "x" "topic2" none "d2" "x2"
    rfl (by decide)

/-- C6 counterexample: with a run active but `paused`, `connectAgent`
does not reject — it reaches the Process Invoker and succeeds — although
the claim says it must reject in every active (non-terminal in-run)
state.  The source guard only covers `running` and `pause_requested`. -/
theorem c6_connect_counterexample :
    (connectAgent stPaused .codex none (.ok probeOk) "now").invoked = true ∧
    (connectAgent stPaused .codex none (.ok probeOk) "now").result =
      .ok { agent := .codex, sessionId := "sid9", status := .ready,
            lastConnectedAt := "now", lastError := none } :=
  ⟨rfl, rfl⟩

/-- C6 (amended): `connectAgent` rejects without reaching the Process
Invoker exactly when the debate status is `running` or
`pause_requested`; in every other status — including `paused` and
`stopping`, where a run is still active — it proceeds to probe the
agent through the Process Invoker. -/
theorem c6_connect_guard_amended (st : EngineState) (a : AgentName) (rsid : Option String)
    (ro : Except String AgentRunResult) (now : String) :
    (st.debate.status = .running ∨ st.debate.status = .pause_requested →
      (connectAgent st a rsid ro now).state = st ∧
      (connectAgent st a rsid ro now).invoked = false ∧
      (connectAgent st a rsid ro now).result =
        .error "토론 실행 중에는 에이전트 재연결을 할 수 없습니다.") ∧
    (¬(st.debate.status = .running ∨ st.debate.status = .pause_requested) →
      (connectAgent st a rsid ro now).invoked = true) := by
  constructor
  · intro h
    unfold connectAgent
    rw [if_pos h]
    exact ⟨rfl, rfl, rfl⟩
  · intro h
    unfold connectAgent
    rw [if_neg h]
    cases ro with
    | error m => rfl
    | ok r =>
      dsimp only
      split <;> rfl

/-- C6 witness: the amended guard at a concrete running state (rejects
without invoking) and at a concrete stopping state (invokes the probe
even though a run is still active). -/
theorem c6_witness :
    ((connectAgent { stReady with
        debate :=
          { status := .running, runId := makeRunId "d" "x", round := 1,
            topic := "topic", maxRounds := 2, reason := none }
        executionActive := true } .gemini none (.ok probeOk) "now").invoked = false ∧
     (connectAgent { stReady with
        debate :=
          { status := .running, runId := makeRunId "d" "x", round := 1,
            topic := "topic", maxRounds := 2, reason := none }
        executionActive := true } .gemini none (.ok probeOk) "now").result =
      .error "토론 실행 중에는 에이전트 재연결을 할 수 없습니다.") ∧
    (connectAgent { stReady with
        debate :=
          { status := .stopping, runId := makeRunId "d" "x", round := 1,
            topic := "topic", maxRounds := 2, reason := none }
        stopRequested := true
        executionActive := true } .codex none (.ok probeOk) "now").invoked = true := by
  constructor
  · have h := (c6_connect_guard_amended { stReady with
        debate :=
          { status := .running, runId := makeRunId "d" "x", round := 1,
            topic := "topic", maxRounds := 2, reason := none }
        executionActive := true } .gemini none (.ok probeOk) "now").1 (Or.inl rfl)
    exact ⟨h.2.1, h.2.2⟩
  · exact (c6_connect_guard_amended { stReady with
        debate :=
          { status := .stopping, runId := makeRunId "d" "x", round := 1,
            topic := "topic", maxRounds := 2, reason := none }
        stopRequested := true
        executionActive := true } .codex none (.ok probeOk) "now").2 (by decide)

lemma string_length_append (a b : String) : (a ++ b).length = a.length + b.length :=
  List.length_append a.data b.data

lemma makeRunId_ne_empty (stamp suffix : String) : makeRunId stamp suffix ≠ "" := by
  unfold makeRunId
  intro h
  have hlen := congrArg String.length h
  rw [string_length_append, string_length_append, string_length_append] at hlen
  have h4 : "run_".length = 4 := rfl
  have h1 : "_".length = 1 := rfl
  have h0 : "".length = 0 := rfl
  omega

lemma connectAgent_preserves (st : EngineState) (a : AgentName) (rsid : Option String)
    (ro : Except String AgentRunResult) (now : String) :
    (connectAgent st a rsid ro now).state.debate = st.debate ∧
    (connectAgent st a rsid ro now).state.executionActive = st.executionActive := by
  unfold connectAgent
  repeat' split
  all_goals cases a <;> simp [setAgent]

/-- C9.  In every state reachable from the constructor through the
public operations and the loop's mutations, a non-`idle` debate status
implies a non-empty run id: the only transition out of `idle` is a
successful `startDebate`, which installs `makeRunId`'s `run_`-prefixed
identifier, and no transition ever clears it. -/
theorem c9_runid_invariant (cfg : EngineConfig) (st : EngineState) (h : Reachable cfg st)
    (hs : st.debate.status ≠ .idle) : st.debate.runId ≠ "" := by
  suffices hInv : (st.debate.status ≠ .idle → st.debate.runId ≠ "") ∧
      (st.executionActive = true → st.debate.runId ≠ "") from hInv.1 hs
  clear hs
  induction h with
  | init pg pc =>
    exact ⟨fun hne => absurd rfl hne, fun hx => by simp [initState] at hx⟩
  | connect h a rsid ro now ih =>
    obtain ⟨hd, hx⟩ := connectAgent_preserves _ a rsid ro now
    rw [hd, hx]
    exact ih
  | start h topic mr stamp suffix hok ih =>
    unfold startDebate at hok
    repeat' split at hok
    all_goals cases hok
    exact ⟨fun _ => makeRunId_ne_empty _ _, fun _ => makeRunId_ne_empty _ _⟩
  | pause h hok ih =>
    unfold pauseDebate at hok
    split at hok
    · cases hok
    · rename_i hcond
      cases hok
      have hrun := not_not.mp hcond
      exact ⟨fun _ => ih.1 (by rw [hrun]; exact fun hh => nomatch hh),
        fun hx => ih.2 hx⟩
  | resume h hok ih =>
    unfold resumeDebate at hok
    split at hok
    · cases hok
    · rename_i hcond
      cases hok
      have hrun := not_not.mp hcond
      exact ⟨fun _ => ih.1 (by rw [hrun]; exact fun hh => nomatch hh),
        fun hx => ih.2 hx⟩
  | @stop st0 st1 h hok ih =>
    unfold stopDebate at hok
    split at hok
    · cases hok
    · rename_i hcond
      cases hok
      have hne : st0.debate.status ≠ .idle := by
        intro hid
        apply hcond
        rw [hid]
        exact ⟨by decide, by decide, by decide⟩
      exact ⟨fun _ => ih.1 hne, fun hx => ih.2 hx⟩
  | loopSetRound h r hx ih => exact ⟨fun _ => ih.2 hx, fun hxx => ih.2 hx⟩
  | loopPaused h hx ih => exact ⟨fun _ => ih.2 hx, fun hxx => ih.2 hx⟩
  | loopSessionRotate h a sid now hx ih =>
    cases a <;> exact ⟨fun _ => ih.2 hx, fun hxx => ih.2 hx⟩
  | loopCountSet h n hx ih => exact ⟨fun _ => ih.2 hx, fun hxx => ih.2 hx⟩
  | loopFinish h fs reason hx hfs ih =>
    exact ⟨fun _ => ih.2 hx, fun hxx => by simp at hxx⟩

/-- C9 witness: the invariant instantiated at a concrete reachable
running state. -/
theorem c9_witness : stW1.debate.runId ≠ "" :=
  c9_runid_invariant cfgW stW1
    (Reachable.start
      (Reachable.connect
        (Reachable.connect (Reachable.init "g0" "c0") .gemini none (.ok okProbe) "t1")
        .codex none (.ok okProbe) "t2")
      "topic" none "d" "x" rfl)
    (by decide)

/-- C10.  The zero-exit session-id rule of `runAgent`: the result's
session id is the one extracted from stdout when extraction finds one,
otherwise the caller-supplied id, otherwise empty; hence a resumed
invocation (non-empty supplied id) never reports an empty session id,
and `connectAgent` with a stored or supplied prior session id cannot
fail for lack of an extractable id. -/
theorem c10_session_id_fallback (stdout stderr command : String) (parsed : JsonValue)
    (sid : String) (hsid : sid ≠ "") :
    (∀ osid : Option String,
      (closeZeroResult stdout stderr command parsed osid).sessionId =
        (if extractSessionId stdout parsed = "" then osid.getD ""
         else extractSessionId stdout parsed)) ∧
    (closeZeroResult stdout stderr command parsed (some sid)).sessionId ≠ "" ∧
    (∀ (st : EngineState) (a : AgentName) (rsid : Option String) (now e : String),
      ¬(st.debate.status = .running ∨ st.debate.status = .pause_requested) →
      (connectAgent st a rsid
        (.ok (closeZeroResult stdout stderr command parsed (some sid))) now).result ≠
        .error e) := by
  have h1 : ∀ osid : Option String,
      (closeZeroResult stdout stderr command parsed osid).sessionId =
        (if extractSessionId stdout parsed = "" then osid.getD ""
         else extractSessionId stdout parsed) := by
    intro osid
    by_cases he : extractSessionId stdout parsed = ""
    · cases osid with
      | none => simp [closeZeroResult, jsOr, he]
      | some s =>
        by_cases hs : s = "" <;> simp [closeZeroResult, jsOr, he, hs]
    · simp [closeZeroResult, jsOr, he]
  have h2 : (closeZeroResult stdout stderr command parsed (some sid)).sessionId ≠ "" := by
    rw [h1 (some sid)]
    by_cases he : extractSessionId stdout parsed = "" <;> simp [he, hsid]
  refine ⟨h1, h2, ?_⟩
  intro st a rsid now e hguard
  simp [connectAgent, hguard, h2]

/-- C10 witness: with no extractable id in the output but a supplied
session id, the result's id is non-empty and `connectAgent` does not
fail. -/
theorem c10_witness :
    (closeZeroResult "no ids here" "" "cmd" .null (some "sess-1")).sessionId ≠ "" ∧
    (connectAgent stReady .gemini (some "sess-1")
      (.ok (closeZeroResult "no ids here" "" "cmd" .null (some "sess-1"))) "now").result ≠
      .error "gemini session id를 추출하지 못했습니다." :=
  ⟨(c10_session_id_fallback "no ids here" "" "cmd" .null "sess-1" (by decide)).2.1,
   (c10_session_id_fallback "no ids here" "" "cmd" .null "sess-1" (by decide)).2.2
     stReady .gemini (some "sess-1") "now" "gemini session id를 추출하지 못했습니다."
     (by decide)⟩

end TalkDebate
